import Mathlib

/-!
Verification development for the photosort library manager.

The definitions below are a shallow embedding of the Rust sources under
src/src/photosort_core (import.rs, database.rs, search.rs, scan.rs, exif.rs,
media.rs, push.rs).  Text is modelled as Lean strings; lexicographic
comparison of stored text (SQLite compares TEXT by memcmp of the UTF-8
bytes, which coincides with code-point order) is modelled by the List Char
order.  Machine integers (i64/u64) are modelled by Int/Nat; the only place
the i64 range matters is string-to-integer parsing, where the range check of
Rust's str::parse::<i64> is carried out explicitly.  SQLite behaviour that
the code relies on (UNIQUE constraints, ON DELETE CASCADE, transactional
rollback) is embedded at the call sites that the schema in database.rs
guarantees.
-/

namespace Photosort

/-! ### Characters and decimal rendering -/

/-- Character of a single decimal digit (0 ≤ n ≤ 9 gives the ASCII digit). -/
def digitChar (n : Nat) : Char := Char.ofNat (48 + n)

/-- Zero-padded fixed-width decimal numeral, most significant digit first.
This is how the time crate renders zero-padded numeric format components
(year, month, day, hour, minute, second, offset fields). -/
def padNum : Nat → Nat → List Char
  | 0, _ => []
  | w + 1, n => digitChar (n / 10 ^ w) :: padNum w (n % 10 ^ w)

/-- Subsecond reduction of the time crate (SubsecondDigits::OneOrMore):
starting from the nine-digit nanosecond value, drop trailing decimal zeros
while more than one digit remains.  Returns (value, width). -/
def subsecReduce (v : Nat) : Nat → Nat × Nat
  | 0 => (v, 0)
  | 1 => (v, 1)
  | w + 2 => if v % 10 = 0 then subsecReduce (v / 10) (w + 1) else (v, w + 2)

/-- Digits of the subsecond field as printed by the time crate for the
format item sequence of DB_DATE_FORMAT (at least one digit, no trailing
zeros). -/
def fracChars (nanos : Nat) : List Char :=
  let p := subsecReduce nanos 9
  padNum p.2 p.1

/-! ### Timestamps

The Rust code stores time::OffsetDateTime values.  A timestamp is a local
calendar date/time, a nanosecond-of-second value, and a UTC offset in
minutes. -/

structure Timestamp where
  year : Nat
  month : Nat
  day : Nat
  hour : Nat
  minute : Nat
  second : Nat
  nanos : Nat
  offsetMinutes : Int
deriving DecidableEq

/-- Gregorian leap-year rule. -/
def isLeap (y : Nat) : Bool := y % 4 = 0 && (y % 100 ≠ 0 || y % 400 = 0)

/-- Number of days in a month of a given year. -/
def days_in_month (y m : Nat) : Nat :=
  match m with
  | 1 => 31
  | 2 => if isLeap y then 29 else 28
  | 3 => 31
  | 4 => 30
  | 5 => 31
  | 6 => 30
  | 7 => 31
  | 8 => 31
  | 9 => 30
  | 10 => 31
  | 11 => 30
  | 12 => 31
  | _ => 0

/-- Days in all months of the year strictly before month m (1-based). -/
def daysBeforeMonth (leap : Bool) (m : Nat) : Nat :=
  match m with
  | 1 => 0
  | 2 => 31
  | 3 => 59 + (if leap then 1 else 0)
  | 4 => 90 + (if leap then 1 else 0)
  | 5 => 120 + (if leap then 1 else 0)
  | 6 => 151 + (if leap then 1 else 0)
  | 7 => 181 + (if leap then 1 else 0)
  | 8 => 212 + (if leap then 1 else 0)
  | 9 => 243 + (if leap then 1 else 0)
  | 10 => 273 + (if leap then 1 else 0)
  | 11 => 304 + (if leap then 1 else 0)
  | 12 => 334 + (if leap then 1 else 0)
  | _ => 0

/-- Days in all proleptic-Gregorian years in the interval from year 0
(inclusive, a leap year) to year y (exclusive). -/
def daysBeforeYear (y : Nat) : Nat :=
  365 * y + (y + 3) / 4 - (y + 99) / 100 + (y + 399) / 400

/-- Day number of a timestamp's calendar date (days since 0000-01-01). -/
def dayNumber (t : Timestamp) : Nat :=
  daysBeforeYear t.year + daysBeforeMonth (isLeap t.year) t.month + (t.day - 1)

/-- Absolute instant of a timestamp, in nanoseconds since the epoch
0000-01-01T00:00:00Z, obtained by removing the UTC offset. -/
def toUtcNanos (t : Timestamp) : Int :=
  ((dayNumber t : Int) * 86400
      + (t.hour : Int) * 3600 + (t.minute : Int) * 60 + (t.second : Int)
      - t.offsetMinutes * 60) * 1000000000
    + (t.nanos : Int)

/-- Chronological (instant) strict order on timestamps. -/
def chronLt (t1 t2 : Timestamp) : Prop := toUtcNanos t1 < toUtcNanos t2

instance (t1 t2 : Timestamp) : Decidable (chronLt t1 t2) := by
  unfold chronLt; infer_instance

/-- Range validity of a timestamp as maintained by the time crate: a real
calendar date in years 0-9999, a real time of day, nanoseconds below one
second, and a UTC offset whose hour field prints with two digits. -/
def Valid (t : Timestamp) : Prop :=
  t.year ≤ 9999 ∧ 1 ≤ t.month ∧ t.month ≤ 12 ∧
  1 ≤ t.day ∧ t.day ≤ days_in_month t.year t.month ∧
  t.hour ≤ 23 ∧ t.minute ≤ 59 ∧ t.second ≤ 59 ∧
  t.nanos < 1000000000 ∧ t.offsetMinutes.natAbs < 6000

instance (t : Timestamp) : Decidable (Valid t) := by
  unfold Valid; infer_instance

/-! ### The two date formats of import.rs -/

/-- Characters of the UTC-offset suffix rendered by DB_DATE_FORMAT
(offset_hour with mandatory sign, colon, offset_minute). -/
def offsetChars (off : Int) : List Char :=
  (if off < 0 then '-' else '+') :: (padNum 2 (off.natAbs / 60) ++ ':' :: padNum 2 (off.natAbs % 60))

/-- Characters produced by formatting a timestamp with DB_DATE_FORMAT
(import.rs lines 28-30):
year:month:day hour:minute:second.subsecond followed by the signed offset. -/
def dbDateChars (t : Timestamp) : List Char :=
  padNum 4 t.year ++ ':' :: (padNum 2 t.month ++ ':' :: (padNum 2 t.day ++ ' ' ::
    (padNum 2 t.hour ++ ':' :: (padNum 2 t.minute ++ ':' :: (padNum 2 t.second ++ '.' ::
      (fracChars t.nanos ++ offsetChars t.offsetMinutes))))))

/-- Database date string of a timestamp (the text stored in created_at,
imported_at and modified_at columns). -/
def formatDbDate (t : Timestamp) : String := String.mk (dbDateChars t)

/-- String produced by formatting a timestamp with PATH_DATE_FORMAT
(import.rs lines 32-34): year/month-day. -/
def formatPathDate (t : Timestamp) : String :=
  String.mk (padNum 4 t.year ++ '/' :: (padNum 2 t.month ++ '-' :: padNum 2 t.day))

/-! ### ASCII text helpers

Rust's str::trim / str::to_uppercase / str::to_lowercase are applied to
console input and to extension/size strings, all ASCII in this code base;
SQLite's UPPER and LIKE are ASCII-only by definition.  They are modelled by
the ASCII transformations below. -/

/-- ASCII uppercase of one character. -/
def asciiUpperChar (c : Char) : Char :=
  if 'a' ≤ c ∧ c ≤ 'z' then Char.ofNat (c.toNat - 32) else c

/-- ASCII lowercase of one character. -/
def asciiLowerChar (c : Char) : Char :=
  if 'A' ≤ c ∧ c ≤ 'Z' then Char.ofNat (c.toNat + 32) else c

/-- ASCII uppercase of a string. -/
def asciiUpper (s : String) : String := String.mk (s.data.map asciiUpperChar)

/-- ASCII lowercase of a string. -/
def asciiLower (s : String) : String := String.mk (s.data.map asciiLowerChar)

/-- Whitespace recognised by str::trim (ASCII portion). -/
def isSpaceChar (c : Char) : Bool := c = ' ' || c = '\t' || c = '\n' || c = '\r'

/-- Remove leading and trailing whitespace, as str::trim. -/
def strTrim (s : String) : String :=
  String.mk (((s.data.dropWhile isSpaceChar).reverse.dropWhile isSpaceChar).reverse)

/-- Whether the second list occurs at the start of the first. -/
def listStartsWith : List Char → List Char → Bool
  | _, [] => true
  | [], _ :: _ => false
  | a :: s, b :: p => a == b && listStartsWith s p

/-- Whether the second list occurs anywhere inside the first (used for the
LIKE percent-pattern match of search.rs, case already folded). -/
def listContainsSeq : List Char → List Char → Bool
  | [], p => p.isEmpty
  | a :: s, p => listStartsWith (a :: s) p || listContainsSeq s p

/-! ### media.rs: media types -/

inductive MediaType where
  | image
  | video
deriving DecidableEq

/-- MediaType::as_str (media.rs lines 26-31). -/
def MediaType.as_str : MediaType → String
  | .image => "image"
  | .video => "video"

/-- MediaType::folder_name (media.rs lines 33-38). -/
def MediaType.folder_name : MediaType → String
  | .image => "images"
  | .video => "videos"

/-! ### Data model rows (schema of database.rs, migration 1) -/

/-- EXIF metadata carried by a candidate and stored on its media row
(media.rs lines 48-59).  The two GPS coordinates are REAL columns; they are
carried opaquely as rationals here since no claim computes with them. -/
structure ExifMetadata where
  camera_make : Option String := none
  camera_model : Option String := none
  lens : Option String := none
  focal_length : Option String := none
  aperture : Option String := none
  shutter_speed : Option String := none
  iso : Option Int := none
  gps_lat : Option Rat := none
  gps_lon : Option Rat := none
deriving DecidableEq

/-- A row of the media table. -/
structure MediaRow where
  id : Nat
  hash : String
  filename : String
  relpath : String
  media_type : MediaType
  filetype : String
  file_size : Int
  created_at : String
  imported_at : String
  exif : ExifMetadata
deriving DecidableEq

/-- A row of the sidecars table. -/
structure SidecarRow where
  id : Nat
  media_id : Nat
  filename : String
  filetype : String
  file_size : Int
  hash : String
  modified_at : String
deriving DecidableEq

/-- A row of the backup_history table (written by push.rs and backup.rs). -/
structure BackupRow where
  target_path : String
  started_at : String
  completed_at : Option String
  files_copied : Int
  bytes_copied : Int
  status : String
deriving DecidableEq

/-- The persisted index: the SQLite database of one library.  Row ids model
SQLite rowids (last_insert_rowid is the id handed out at insertion). -/
structure Db where
  media : List MediaRow := []
  sidecars : List SidecarRow := []
  backup_history : List BackupRow := []
  next_media_id : Nat := 1
  next_sidecar_id : Nat := 1
deriving DecidableEq

/-- The freshly migrated empty database produced by Database::new on a new
library (database.rs lines 14-93). -/
def Db.empty : Db := {}

/-- Database::hash_exists (database.rs lines 190-197): whether some media
row stores exactly this hash text. -/
def Db.hash_exists (db : Db) (h : String) : Bool :=
  db.media.any (fun r => r.hash == h)

/-- Database::get_media_id_by_hash (database.rs lines 200-211). -/
def Db.get_media_id_by_hash (db : Db) (h : String) : Option Nat :=
  (db.media.find? (fun r => r.hash == h)).map (fun r => r.id)

/-! ### import.rs: candidates and the dedup phase -/

/-- SidecarCandidate (import.rs lines 56-64). -/
structure SidecarCandidate where
  source_path : String
  filename : String
  filetype : String
  file_size : Nat
  hash : String
  modified_at : Timestamp
deriving DecidableEq

/-- ImportCandidate (import.rs lines 42-54). -/
structure ImportCandidate where
  source_path : String
  hash : String
  media_type : MediaType
  file_size : Nat
  created_at : Timestamp
  filename : String
  filetype : String
  sidecars : List SidecarCandidate
  exif : ExifMetadata
deriving DecidableEq

/-- Operator's decision for a duplicate pair with conflicting edits, parsed
from the console line exactly as import.rs lines 215-235 does. -/
inductive DupChoice where
  | first
  | second
  | both
deriving DecidableEq

/-- Parse of the console answer: trim, uppercase, then match "2" / "B",
anything else meaning keep-first. -/
def parseDupChoice (input : String) : DupChoice :=
  match asciiUpper (strTrim input) with
  | "2" => .second
  | "B" => .both
  | _ => .first

/-- State of the dedup loop of import.rs lines 176-253: the unique_by_hash
map (association list keyed by hash), the duplicates_skipped counter, and
the remaining console input lines. -/
structure DedupState where
  table : List (String × ImportCandidate) := []
  duplicates_skipped : Nat := 0
  inputs : List String := []
deriving DecidableEq

/-- HashMap lookup. -/
def tableLookup (t : List (String × ImportCandidate)) (k : String) :
    Option ImportCandidate :=
  (t.find? (fun e => e.1 == k)).map (fun e => e.2)

/-- HashMap insert: replace the value under an existing key, or append a
new binding. -/
def tableSet (t : List (String × ImportCandidate)) (k : String)
    (c : ImportCandidate) : List (String × ImportCandidate) :=
  if t.any (fun e => e.1 == k) then
    t.map (fun e => if e.1 == k then (k, c) else e)
  else
    t ++ [(k, c)]

/-- One iteration of the dedup loop of import.rs lines 179-253 for a single
candidate: candidates whose hash is already in the library index are
counted and dropped; within the batch, the unique_by_hash entry API drives
merge, replace, keep-both (with the synthetic "-alt" hash) or skip. -/
def dedupStep (db : Db) (st : DedupState) (c : ImportCandidate) : DedupState :=
  if db.hash_exists c.hash then
    { st with duplicates_skipped := st.duplicates_skipped + 1 }
  else
    match tableLookup st.table c.hash with
    | none => { st with table := tableSet st.table c.hash c }
    | some existing =>
      if existing.sidecars ≠ [] ∧ c.sidecars ≠ [] then
        match parseDupChoice (st.inputs.headD "") with
        | .second =>
            { st with table := tableSet st.table c.hash c, inputs := st.inputs.tail }
        | .both =>
            { st with
              table := tableSet st.table (c.hash ++ "-alt") { c with hash := c.hash ++ "-alt" },
              inputs := st.inputs.tail }
        | .first =>
            { st with duplicates_skipped := st.duplicates_skipped + 1,
                      inputs := st.inputs.tail }
      else if c.sidecars = [] then
        { st with duplicates_skipped := st.duplicates_skipped + 1 }
      else
        { st with
          table := tableSet st.table c.hash
            { existing with sidecars := existing.sidecars ++ c.sidecars },
          duplicates_skipped := st.duplicates_skipped + 1 }

/-- The whole dedup loop over the candidate list. -/
def dedupAll (db : Db) (inputs : List String) (cands : List ImportCandidate) :
    DedupState :=
  cands.foldl (dedupStep db) { inputs := inputs }

/-- The to_import list (unique_by_hash.into_values, import.rs line 255). -/
def batchToImport (st : DedupState) : List ImportCandidate :=
  st.table.map (fun e => e.2)

/-! ### import.rs: destination planning and the two commit phases -/

/-- Relative destination directory of a candidate (import.rs lines 290-295):
media-type folder, slash, capture date formatted with PATH_DATE_FORMAT. -/
def rel_path_of (c : ImportCandidate) : String :=
  c.media_type.folder_name ++ "/" ++ formatPathDate c.created_at

/-- Relative destination path of the media file itself: the destination
directory joined with the original filename. -/
def dest_rel_path (c : ImportCandidate) : String :=
  rel_path_of c ++ "/" ++ c.filename

/-- FileCopy (import.rs lines 66-71). -/
structure FileCopy where
  source : String
  destination : String
deriving DecidableEq

/-- Planned copy list (import.rs lines 287-312): for every selected
candidate, one copy for the media file and one per sidecar, all into the
candidate's destination directory under the library root. -/
def plan_copies (root : String) (cs : List ImportCandidate) : List FileCopy :=
  cs.foldl
    (fun acc c =>
      let dest_dir := root ++ "/" ++ rel_path_of c
      (acc ++ [{ source := c.source_path, destination := dest_dir ++ "/" ++ c.filename }])
        ++ c.sidecars.map
            (fun sc => { source := sc.source_path, destination := dest_dir ++ "/" ++ sc.filename }))
    []

/-- Destination dedup (import.rs lines 314-335): keep the first copy per
destination path, skip later ones. -/
def dedup_copies (fcs : List FileCopy) : List FileCopy :=
  fcs.foldl
    (fun acc fc =>
      if acc.any (fun d => d.destination == fc.destination) then acc else acc ++ [fc])
    []

/-- ImportStats (import.rs lines 584-592). -/
structure ImportStats where
  images_imported : Nat := 0
  videos_imported : Nat := 0
  sidecars_imported : Nat := 0
  duplicates_skipped : Nat := 0
  errors : Nat := 0
deriving DecidableEq

/-- Failure modes of an import run: the copy-failure abort of import.rs
lines 370-374, or a database error inside the transaction (which rusqlite
rolls back when the transaction is dropped). -/
inductive ImportError where
  | copy_failed (failures : List FileCopy)
  | db_error
deriving DecidableEq

instance {ε α : Type} [DecidableEq ε] [DecidableEq α] : DecidableEq (Except ε α) :=
  fun a b =>
    match a, b with
    | .error x, .error y => decidable_of_iff (x = y) (by simp)
    | .error _, .ok _ => isFalse (fun h => Except.noConfusion h)
    | .ok _, .error _ => isFalse (fun h => Except.noConfusion h)
    | .ok x, .ok y => decidable_of_iff (x = y) (by simp)

/-- INSERT INTO media (import.rs lines 396-419).  The hash column is
declared UNIQUE (database.rs line 29), so inserting an existing hash is a
constraint violation that fails the statement. -/
def insert_media (db : Db) (c : ImportCandidate) (now : String) :
    Option (Db × Nat) :=
  if db.hash_exists c.hash then none
  else
    let mid := db.next_media_id
    some
      ({ db with
          media := db.media ++
            [{ id := mid, hash := c.hash, filename := c.filename,
               relpath := rel_path_of c, media_type := c.media_type,
               filetype := c.filetype, file_size := (c.file_size : Int),
               created_at := formatDbDate c.created_at, imported_at := now,
               exif := c.exif }],
          next_media_id := mid + 1 },
        mid)

/-- INSERT INTO sidecars (import.rs lines 431-442).  The pair
(media_id, filename) is declared UNIQUE (database.rs line 59). -/
def insert_sidecar (db : Db) (media_id : Nat) (sc : SidecarCandidate) :
    Option Db :=
  if db.sidecars.any (fun r => r.media_id == media_id && r.filename == sc.filename) then none
  else
    some
      { db with
        sidecars := db.sidecars ++
          [{ id := db.next_sidecar_id, media_id := media_id,
             filename := sc.filename, filetype := sc.filetype,
             file_size := (sc.file_size : Int), hash := sc.hash,
             modified_at := formatDbDate sc.modified_at }],
        next_sidecar_id := db.next_sidecar_id + 1 }

/-- Insertion of one sidecar row inside the transaction, with its counter
bump (import.rs lines 429-444). -/
def commit_sidecar (mid : Nat) (p : Db × ImportStats) (sc : SidecarCandidate) :
    Option (Db × ImportStats) := do
  let db2 ← insert_sidecar p.1 mid sc
  pure (db2, { p.2 with sidecars_imported := p.2.sidecars_imported + 1 })

/-- Commit of one candidate inside the transaction (import.rs lines
386-445): insert the media row, bump the per-type counter, then insert
every sidecar row under the fresh media id. -/
def commit_one (now : String) (acc : Db × ImportStats) (c : ImportCandidate) :
    Option (Db × ImportStats) := do
  let (db1, mid) ← insert_media acc.1 c now
  let s1 :=
    match c.media_type with
    | .image => { acc.2 with images_imported := acc.2.images_imported + 1 }
    | .video => { acc.2 with videos_imported := acc.2.videos_imported + 1 }
  c.sidecars.foldlM (commit_sidecar mid) (db1, s1)

/-- Phase 3, the whole transaction (import.rs lines 379-447).  A None
result models a statement error: the transaction is dropped and rolled
back, leaving the database untouched. -/
def commit_all (db : Db) (now : String) (cs : List ImportCandidate) :
    Option (Db × ImportStats) :=
  cs.foldlM (commit_one now) (db, {})

/-- Library::import with dry_run = false (import.rs lines 132-463),
starting from the assembled candidate list.  The copy outcomes are an
oracle copy_ok on planned copies; console answers for conflict prompts are
the inputs list; now is the imported_at text.  Returns the database after
the run together with the result.  If any copy fails the run aborts with
CopyFailed before any row is written; otherwise all rows are written in one
transaction. -/
def run_import (db : Db) (root : String) (cands : List ImportCandidate)
    (inputs : List String) (copy_ok : FileCopy → Bool) (now : String) :
    Db × Except ImportError ImportStats :=
  let st := dedupAll db inputs cands
  let selected := batchToImport st
  let copies := dedup_copies (plan_copies root selected)
  let failures := copies.filter (fun fc => ! copy_ok fc)
  if failures.isEmpty then
    match commit_all db now selected with
    | some (db1, s) => (db1, .ok { s with duplicates_skipped := st.duplicates_skipped })
    | none => (db, .error .db_error)
  else
    (db, .error (.copy_failed failures))

/-! ### scan.rs: operator-approved resolutions -/

/-- MissingFile (scan.rs lines 21-28), minus the filesystem path. -/
structure MissingFile where
  id : Nat
  filename : String
  relpath : String
  media_type : String
deriving DecidableEq

/-- DELETE FROM media WHERE id = ? (scan.rs line 324 and 339).  Sidecar
rows referencing the media row are removed by the ON DELETE CASCADE
foreign key of the sidecars table (database.rs line 53). -/
def delete_media (db : Db) (mid : Nat) : Db :=
  { db with
    media := db.media.filter (fun r => r.id ≠ mid),
    sidecars := db.sidecars.filter (fun s => s.media_id ≠ mid) }

/-- handle_missing_files (scan.rs lines 301-352): R removes every listed
record in one transaction, S asks per record (y deletes), anything else
keeps the database unchanged. -/
def handle_missing_files (db : Db) (missing : List MissingFile)
    (choice : String) (selections : List String) : Db :=
  match asciiUpper (strTrim choice) with
  | "R" => missing.foldl (fun d f => delete_media d f.id) db
  | "S" =>
      (missing.foldl
        (fun (p : Db × List String) f =>
          if asciiLower (strTrim (p.2.headD "")) = "y" then
            (delete_media p.1 f.id, p.2.tail)
          else
            (p.1, p.2.tail))
        (db, selections)).1
  | _ => db

/-- handle_orphaned_sidecars (scan.rs lines 354-380): any answer other than
n deletes every listed sidecar row in one transaction. -/
def handle_orphaned_sidecars (db : Db) (orphaned : List Nat) (input : String) : Db :=
  if asciiLower (strTrim input) ≠ "n" then
    { db with
      sidecars := db.sidecars.filter (fun s => ! orphaned.contains s.id) }
  else db

/-- handle_modified_sidecars (scan.rs lines 382-414): any answer other than
n updates hash and modified_at of every listed sidecar row. -/
def handle_modified_sidecars (db : Db) (mods : List (Nat × String))
    (input : String) (now : String) : Db :=
  if asciiLower (strTrim input) ≠ "n" then
    { db with
      sidecars := db.sidecars.map
        (fun s =>
          match (mods.find? (fun m => m.1 == s.id)) with
          | some m => { s with hash := m.2, modified_at := now }
          | none => s) }
  else db

/-! ### push.rs: the only local index write of a push -/

/-- The INSERT INTO backup_history at the end of push (push.rs lines
448-461).  A push copies files to the remote; the only write to the local
index is this history row. -/
def record_push (db : Db) (target now : String) (files bytes : Int) : Db :=
  { db with
    backup_history := db.backup_history ++
      [{ target_path := target, started_at := now, completed_at := some now,
         files_copied := files, bytes_copied := bytes, status := "completed" }] }

/-! ### States reachable by the library's operations -/

/-- Databases reachable from a fresh library by the mutating operations:
imports, the three scan resolutions, and pushes. -/
inductive Reachable : Db → Prop
  | create : Reachable Db.empty
  | import_op (db : Db) (root : String) (cands : List ImportCandidate)
      (inputs : List String) (copy_ok : FileCopy → Bool) (now : String) :
      Reachable db → Reachable (run_import db root cands inputs copy_ok now).1
  | missing_op (db : Db) (missing : List MissingFile) (choice : String)
      (selections : List String) :
      Reachable db → Reachable (handle_missing_files db missing choice selections)
  | orphaned_op (db : Db) (orphaned : List Nat) (input : String) :
      Reachable db → Reachable (handle_orphaned_sidecars db orphaned input)
  | modified_op (db : Db) (mods : List (Nat × String)) (input : String) (now : String) :
      Reachable db → Reachable (handle_modified_sidecars db mods input now)
  | push_op (db : Db) (target now : String) (files bytes : Int) :
      Reachable db → Reachable (record_push db target now files bytes)

/-! ### search.rs: query parsing and execution -/

/-- Leftmost non-overlapping split on the two-character separator "..", as
str::split("..") produces it for the date and size filters. -/
def splitDots (acc : List Char) : List Char → List String
  | '.' :: '.' :: rest => String.mk acc.reverse :: splitDots [] rest
  | c :: rest => splitDots (c :: acc) rest
  | [] => [String.mk acc.reverse]

/-- Numeric value of a nonempty all-digit character list. -/
def digitsVal : List Char → Option Nat
  | [] => none
  | [c] => if '0' ≤ c ∧ c ≤ '9' then some (c.toNat - 48) else none
  | c :: rest =>
      if '0' ≤ c ∧ c ≤ '9' then
        (digitsVal rest).map (fun n => (c.toNat - 48) * 10 ^ rest.length + n)
      else none

/-- Rust's str::parse::<i64>: optional sign, at least one digit, whole
string consumed, value within the i64 range. -/
def parse_i64 (l : List Char) : Option Int :=
  match l with
  | '+' :: rest =>
      (digitsVal rest).bind
        (fun n => if n ≤ 9223372036854775807 then some (n : Int) else none)
  | '-' :: rest =>
      (digitsVal rest).bind
        (fun n => if n ≤ 9223372036854775808 then some (-(n : Int)) else none)
  | _ =>
      (digitsVal l).bind
        (fun n => if n ≤ 9223372036854775807 then some (n : Int) else none)

/-- Whether the character list ends with the given suffix. -/
def listEndsWith (l suf : List Char) : Bool :=
  listStartsWith l.reverse suf.reverse

/-- Drop the last n characters. -/
def dropEnd (l : List Char) (n : Nat) : List Char := l.take (l.length - n)

/-- parse_size_value (search.rs lines 82-100): uppercase-trim, strip a
GB/MB/KB/B suffix, parse the remainder as i64 and scale. -/
def parse_size_value (s : String) : Option Int :=
  let u := (asciiUpper (strTrim s)).data
  let scaled : List Char → Int → Option Int := fun numPart mult =>
    (parse_i64 (strTrim (String.mk numPart)).data).map (fun n => n * mult)
  if listEndsWith u ['G', 'B'] then scaled (dropEnd u 2) 1073741824
  else if listEndsWith u ['M', 'B'] then scaled (dropEnd u 2) 1048576
  else if listEndsWith u ['K', 'B'] then scaled (dropEnd u 2) 1024
  else if listEndsWith u ['B'] then scaled (dropEnd u 1) 1
  else scaled u 1

/-- SearchQuery::parse_size_filter (search.rs lines 54-79): a range
low..high, a comparison with a leading greater or less sign, or an exact
size. -/
def parse_size_filter (size_str : String) : Option Int × Option Int :=
  let s := strTrim size_str
  let parts := splitDots [] s.data
  if 2 ≤ parts.length then
    if parts.length = 2 then
      (parse_size_value (parts.headD ""), parse_size_value ((parts.drop 1).headD ""))
    else
      let v := parse_size_value s
      (v, v)
  else
    match s.data with
    | '>' :: rest => (parse_size_value (String.mk rest), none)
    | '<' :: rest => (none, parse_size_value (String.mk rest))
    | _ =>
        let v := parse_size_value s
        (v, v)

/-- SearchQuery::parse_date_filter (search.rs lines 39-51). -/
def parse_date_filter (date_str : String) : Option String × Option String :=
  let parts := splitDots [] date_str.data
  if 2 ≤ parts.length ∧ parts.length = 2 then
    (some (parts.headD ""), some ((parts.drop 1).headD ""))
  else
    (some date_str, some date_str)

/-- MediaTypeFilter (cli.rs lines 159-164). -/
inductive MediaTypeFilter where
  | image
  | video
  | all
deriving DecidableEq

/-- SearchQuery (search.rs lines 8-19). -/
structure SearchQuery where
  media_type : Option MediaTypeFilter := none
  date_start : Option String := none
  date_end : Option String := none
  extensions : List String := []
  has_sidecar : Option Bool := none
  min_size : Option Int := none
  max_size : Option Int := none
  camera : Option String := none
  lens : Option String := none

/-- SearchResult (search.rs lines 22-35). -/
structure SearchResult where
  id : Nat
  filename : String
  relpath : String
  media_type : String
  filetype : String
  file_size : Int
  created_at : String
  camera_model : Option String
  has_sidecar : Bool
  full_path : String
deriving DecidableEq

/-- SQLite TEXT comparison a ≤ b (memcmp of UTF-8 bytes, which is
code-point lexicographic order). -/
def sqlTextLeb (a b : String) : Bool := ! decide (b.data < a.data)

/-- SQLite LIKE with a percent-wrapped pattern on a nullable column:
ASCII-case-insensitive substring match, NULL never matches. -/
def likeContains (field : Option String) (pat : String) : Bool :=
  match field with
  | none => false
  | some v => listContainsSeq (asciiUpper v).data (asciiUpper pat).data

/-- The WHERE clause assembled by search (search.rs lines 108-174), applied
to one media row. -/
def row_matches (q : SearchQuery) (r : MediaRow) : Bool :=
  (match q.media_type with
   | some .image => r.media_type.as_str == "image"
   | some .video => r.media_type.as_str == "video"
   | some .all => true
   | none => true) &&
  (match q.date_start with
   | some st => sqlTextLeb (st ++ ":00:00:00") r.created_at
   | none => true) &&
  (match q.date_end with
   | some en => sqlTextLeb r.created_at (en ++ ":23:59:59")
   | none => true) &&
  (q.extensions.isEmpty ||
    q.extensions.any (fun e => asciiUpper r.filetype == asciiUpper e)) &&
  (match q.min_size with
   | some mn => decide (mn ≤ r.file_size)
   | none => true) &&
  (match q.max_size with
   | some mx => decide (r.file_size ≤ mx)
   | none => true) &&
  (match q.camera with
   | some cam => likeContains r.exif.camera_model cam
   | none => true) &&
  (match q.lens with
   | some ln => likeContains r.exif.lens ln
   | none => true)

/-- Insertion step of the ORDER BY created_at DESC sort. -/
def insertDesc (r : MediaRow) : List MediaRow → List MediaRow
  | [] => [r]
  | x :: xs =>
      if sqlTextLeb r.created_at x.created_at then x :: insertDesc r xs
      else r :: x :: xs

/-- ORDER BY m.created_at DESC (search.rs line 174). -/
def sortByCreatedDesc (rows : List MediaRow) : List MediaRow :=
  rows.foldr insertDesc []

/-- Number of sidecar rows of one media row (the sidecar_count subquery of
search.rs lines 109-113). -/
def countSidecars (db : Db) (mid : Nat) : Nat :=
  (db.sidecars.filter (fun s => s.media_id == mid)).length

/-- Assemble one SearchResult from a row (search.rs lines 198-223). -/
def toSearchResult (root : String) (db : Db) (r : MediaRow) : SearchResult :=
  { id := r.id, filename := r.filename, relpath := r.relpath,
    media_type := r.media_type.as_str, filetype := r.filetype,
    file_size := r.file_size, created_at := r.created_at,
    camera_model := r.exif.camera_model,
    has_sidecar := decide (0 < countSidecars db r.id),
    full_path := root ++ "/" ++ r.relpath ++ "/" ++ r.filename }

/-- Execute a search query (search.rs lines 102-227): filter by the WHERE
clause, order by created_at descending, then apply the has_sidecar
post-filter while assembling results. -/
def search (root : String) (db : Db) (q : SearchQuery) : List SearchResult :=
  ((sortByCreatedDesc (db.media.filter (row_matches q))).map
      (toSearchResult root db)).filter
    (fun res =>
      match q.has_sidecar with
      | some want => want == res.has_sidecar
      | none => true)

/-! ### exif.rs: metadata extraction and the capture-time fallback chain -/

/-- Parse exactly w ASCII digits from the front of the list, returning the
value and the rest. -/
def parseFixedNat : Nat → List Char → Option (Nat × List Char)
  | 0, l => some (0, l)
  | _ + 1, [] => none
  | w + 1, c :: rest =>
      if '0' ≤ c ∧ c ≤ '9' then
        (parseFixedNat w rest).map (fun p => ((c.toNat - 48) * 10 ^ w + p.1, p.2))
      else none

/-- Expect one specific character at the front of the list. -/
def expectChar (c : Char) : List Char → Option (List Char)
  | [] => none
  | x :: rest => if x = c then some rest else none

/-- Parse of EXIF_DATE_FORMAT (exif.rs lines 9-11,
year:month:day hour:minute:second) as PrimitiveDateTime::parse performs it:
fixed zero-padded widths, the whole input consumed, and components within
the ranges the time crate validates (including real day-of-month). -/
def parsePrimitiveDateTime (l : List Char) :
    Option (Nat × Nat × Nat × Nat × Nat × Nat) := do
  let (y, l) ← parseFixedNat 4 l
  let l ← expectChar ':' l
  let (mo, l) ← parseFixedNat 2 l
  let l ← expectChar ':' l
  let (d, l) ← parseFixedNat 2 l
  let l ← expectChar ' ' l
  let (h, l) ← parseFixedNat 2 l
  let l ← expectChar ':' l
  let (mi, l) ← parseFixedNat 2 l
  let l ← expectChar ':' l
  let (s, l) ← parseFixedNat 2 l
  if l = [] ∧ 1 ≤ mo ∧ mo ≤ 12 ∧ 1 ≤ d ∧ d ≤ days_in_month y mo ∧
      h ≤ 23 ∧ mi ≤ 59 ∧ s ≤ 59 then
    pure (y, mo, d, h, mi, s)
  else none

/-- Parse of EXIF_OFFSET_FORMAT (exif.rs lines 13-14, offset_hour colon
offset_minute): optional sign, two-digit hour, colon, two-digit minute,
whole input consumed.  Result in minutes. -/
def parse_offset (l : List Char) : Option Int := do
  let (sign, l) :=
    match l with
    | '-' :: rest => ((-1 : Int), rest)
    | '+' :: rest => ((1 : Int), rest)
    | rest => ((1 : Int), rest)
  let (h, l) ← parseFixedNat 2 l
  let l ← expectChar ':' l
  let (m, l) ← parseFixedNat 2 l
  if l = [] ∧ h ≤ 25 ∧ m ≤ 59 then pure (sign * ((h : Int) * 60 + (m : Int)))
  else none

/-- parse_exif_date (exif.rs lines 186-202): empty input is an error, the
date must match EXIF_DATE_FORMAT, and the offset string (when present and
nonempty) is parsed with a fallback to the local offset. -/
def parse_exif_date (date_str : String) (offset_str : Option String)
    (local_offset : Int) : Except String Timestamp :=
  if date_str = "" then .error "empty date"
  else
    match parsePrimitiveDateTime date_str.data with
    | none => .error "invalid date"
    | some (y, mo, d, h, mi, s) =>
        let off :=
          match offset_str with
          | some o =>
              if o ≠ "" then (parse_offset o.data).getD local_offset
              else local_offset
          | none => local_offset
        .ok { year := y, month := mo, day := d, hour := h, minute := mi,
              second := s, nanos := 0, offsetMinutes := off }

/-- The four date fields read from the external tool's raw output
(exif.rs lines 20-49). -/
structure RawExifDates where
  create_date : String := ""
  date_time_original : String := ""
  offset_time : Option String := none
  offset_time_original : Option String := none
deriving DecidableEq

/-- The capture-time fallback chain of extract_metadata (exif.rs lines
143-160): CreateDate with OffsetTime, then DateTimeOriginal with
OffsetTimeOriginal, then the filesystem creation time (when the filesystem
reports one), then the current local time. -/
def extract_created_at (raw : RawExifDates) (fs_created : Option Timestamp)
    (local_offset : Int) (now : Timestamp) : Timestamp :=
  match parse_exif_date raw.create_date raw.offset_time local_offset with
  | .ok t => t
  | .error _ =>
      match parse_exif_date raw.date_time_original raw.offset_time_original
          local_offset with
      | .ok t => t
      | .error _ =>
          match fs_created with
          | some t => t
          | none => now

/-- process_source_file (import.rs lines 467-540) with its filesystem and
external-tool interactions as inputs: the detected media type (None means
not a media file), the computed hash (None models an I/O error while
reading, which drops the file with a warning), and the raw tool output
(None models the tool being unavailable or failing, in which case the
capture time is the current local time). -/
def process_source_file (media_type : Option MediaType) (file_size : Nat)
    (hash : Option String) (raw : Option RawExifDates)
    (fs_created : Option Timestamp) (local_offset : Int) (now : Timestamp)
    (filename filetype source_path : String)
    (sidecars : List SidecarCandidate) (exif : ExifMetadata) :
    Except Unit (Option ImportCandidate) :=
  match media_type with
  | none => .ok none
  | some mt =>
      match hash with
      | none => .error ()
      | some h =>
          let created :=
            match raw with
            | some r => extract_created_at r fs_created local_offset now
            | none => now
          .ok (some
            { source_path := source_path, hash := h, media_type := mt,
              file_size := file_size, created_at := created,
              filename := filename, filetype := filetype,
              sidecars := sidecars, exif := exif })

/-! ### Concrete inputs used by witnesses and counterexamples -/

def tsMay : Timestamp :=
  { year := 2024, month := 5, day := 21, hour := 12, minute := 0, second := 0,
    nanos := 0, offsetMinutes := 540 }

def scMay : SidecarCandidate :=
  { source_path := "/srcdir/a.xmp", filename := "a.xmp", filetype := "XMP",
    file_size := 10, hash := "sideA", modified_at := tsMay }

def candC1 : ImportCandidate :=
  { source_path := "/srcdir/a.jpg", hash := "hashA", media_type := .image,
    file_size := 100, created_at := tsMay, filename := "a.jpg",
    filetype := "JPG", sidecars := [scMay], exif := {} }

def rowC1 : MediaRow :=
  { id := 1, hash := "hashA", filename := "b.jpg",
    relpath := "images/2024/05-21", media_type := .image, filetype := "JPG",
    file_size := 100, created_at := "2024:05:21 12:00:00.0+09:00",
    imported_at := "2024:06:01 10:00:00.0+09:00", exif := {} }

def dbC1 : Db := { media := [rowC1], next_media_id := 2 }

def candC5a : ImportCandidate :=
  { source_path := "/srcdir/x/a.jpg", hash := "hashX", media_type := .image,
    file_size := 50, created_at := tsMay, filename := "a.jpg",
    filetype := "JPG", sidecars := [], exif := {} }

def candC5b : ImportCandidate :=
  { source_path := "/other/a.jpg", hash := "hashY", media_type := .image,
    file_size := 999, created_at := tsMay, filename := "a.jpg",
    filetype := "JPG", sidecars := [scMay], exif := {} }

def candC2 : ImportCandidate :=
  { source_path := "/srcdir/b.jpg", hash := "hashB", media_type := .image,
    file_size := 100, created_at := tsMay, filename := "b.jpg",
    filetype := "JPG", sidecars := [], exif := {} }

def dbC9 : Db :=
  { media := [rowC1],
    sidecars := [{ id := 1, media_id := 1, filename := "b.xmp",
                   filetype := "XMP", file_size := 10, hash := "sideB",
                   modified_at := "2024:06:01 10:00:00.0+09:00" }],
    next_media_id := 2, next_sidecar_id := 2 }

def tsJune : Timestamp :=
  { year := 2024, month := 6, day := 2, hour := 9, minute := 30, second := 0,
    nanos := 0, offsetMinutes := 540 }

def candC10a : ImportCandidate :=
  { source_path := "/srcdir/one/c.jpg", hash := "hashC", media_type := .image,
    file_size := 70, created_at := tsJune, filename := "c.jpg",
    filetype := "JPG",
    sidecars := [{ source_path := "/srcdir/one/c.xmp", filename := "c.xmp",
                   filetype := "XMP", file_size := 5, hash := "sideC1",
                   modified_at := tsJune }],
    exif := {} }

def candC10b : ImportCandidate :=
  { source_path := "/srcdir/two/d.jpg", hash := "hashC", media_type := .image,
    file_size := 70, created_at := tsJune, filename := "d.jpg",
    filetype := "JPG",
    sidecars := [{ source_path := "/srcdir/two/d.xmp", filename := "d.xmp",
                   filetype := "XMP", file_size := 6, hash := "sideC2",
                   modified_at := tsJune }],
    exif := {} }

def rowC3 : MediaRow :=
  { id := 1, hash := "hashS", filename := "s.jpg",
    relpath := "images/2024/05-21", media_type := .image, filetype := "JPG",
    file_size := 10485760, created_at := "2024:05:21 12:00:00.0+09:00",
    imported_at := "2024:06:01 10:00:00.0+09:00", exif := {} }

def dbC3 : Db := { media := [rowC3], next_media_id := 2 }

def rawC8 : RawExifDates :=
  { create_date := "2024:05:21 12:30:00", offset_time := some "+09:00" }

def tsC8 : Timestamp :=
  { year := 2024, month := 5, day := 21, hour := 12, minute := 30, second := 0,
    nanos := 0, offsetMinutes := 540 }

def rawC8empty : RawExifDates := {}

/-- Whether a key is present in the unique_by_hash table. -/
def hasKey (t : List (String × ImportCandidate)) (h : String) : Prop :=
  ∃ e ∈ t, e.1 = h

/-- ASCII decimal digit, as a character-order predicate. -/
def isDigitChar (c : Char) : Prop := '0' ≤ c ∧ c ≤ '9'

instance (c : Char) : Decidable (isDigitChar c) := by
  unfold isDigitChar; infer_instance

/-- Strict lexicographic order on the seven local date-time fields of a
timestamp (year, month, day, hour, minute, second, nanosecond). -/
def fieldsLt (t1 t2 : Timestamp) : Prop :=
  t1.year < t2.year ∨ (t1.year = t2.year ∧ (t1.month < t2.month ∨ (t1.month = t2.month ∧
    (t1.day < t2.day ∨ (t1.day = t2.day ∧ (t1.hour < t2.hour ∨ (t1.hour = t2.hour ∧
      (t1.minute < t2.minute ∨ (t1.minute = t2.minute ∧ (t1.second < t2.second ∨
        (t1.second = t2.second ∧ t1.nanos < t2.nanos)))))))))))

instance (t1 t2 : Timestamp) : Decidable (fieldsLt t1 t2) := by
  unfold fieldsLt; infer_instance

/-- A timestamp with a +09:00 offset, 23:00 local (14:00 UTC). -/
def tsOffA : Timestamp :=
  { year := 2024, month := 1, day := 1, hour := 23, minute := 0, second := 0,
    nanos := 0, offsetMinutes := 540 }

/-- A timestamp with a +00:00 offset, 22:00 local (22:00 UTC). -/
def tsOffB : Timestamp :=
  { year := 2024, month := 1, day := 1, hour := 22, minute := 0, second := 0,
    nanos := 0, offsetMinutes := 0 }

def tsFracA : Timestamp :=
  { year := 2024, month := 5, day := 21, hour := 12, minute := 0, second := 0,
    nanos := 250000000, offsetMinutes := 0 }

def tsFracB : Timestamp :=
  { year := 2024, month := 5, day := 21, hour := 12, minute := 0, second := 0,
    nanos := 500000000, offsetMinutes := 0 }

def rowC7 : MediaRow :=
  { id := 1, hash := "hashB", filename := "b.jpg",
    relpath := "images/2024/05-21", media_type := .image, filetype := "JPG",
    file_size := 100, created_at := "2024:05:21 12:00:00.0+09:00",
    imported_at := "t1", exif := {} }

def dbC7 : Db := { media := [rowC7], next_media_id := 2 }

/-! ### Helper lemmas on the embedded operations -/

theorem find_map_set (t : List (String × ImportCandidate)) (k : String)
    (v : ImportCandidate) (h : t.any (fun e => e.1 == k) = true) :
    (t.map (fun e => if e.1 == k then (k, v) else e)).find?
        (fun e => e.1 == k) = some (k, v) := by
  induction t with
  | nil => simp at h
  | cons e rest ih =>
    by_cases he : (e.1 == k) = true
    · have hhead : (if (e.1 == k) = true then (k, v) else e) = (k, v) := if_pos he
      rw [List.map_cons, hhead, List.find?_cons_of_pos]
      simp
    · have hhead : (if (e.1 == k) = true then (k, v) else e) = e := if_neg he
      simp only [List.any_cons, he, Bool.false_or] at h
      rw [List.map_cons, hhead]
      refine (List.find?_cons_of_neg _ ?_).trans (ih h)
      exact he

theorem tableLookup_tableSet_self (t : List (String × ImportCandidate))
    (k : String) (v : ImportCandidate) :
    tableLookup (tableSet t k v) k = some v := by
  unfold tableSet tableLookup
  by_cases h : t.any (fun e => e.1 == k) = true
  · rw [if_pos h, find_map_set t k v h]
    rfl
  · rw [if_neg h, List.find?_append]
    have hnone : t.find? (fun e => e.1 == k) = none := by
      rw [List.find?_eq_none]
      intro e he hek
      exact h (List.any_eq_true.mpr ⟨e, he, hek⟩)
    rw [hnone]
    simp

theorem delete_media_media_mem {db : Db} {mid : Nat} {r : MediaRow}
    (h : r ∈ (delete_media db mid).media) : r ∈ db.media := by
  unfold delete_media at h
  exact List.mem_of_mem_filter h

theorem delete_media_media_ne {db : Db} {mid : Nat} {r : MediaRow}
    (h : r ∈ (delete_media db mid).media) : r.id ≠ mid := by
  unfold delete_media at h
  simpa using (List.mem_filter.mp h).2

theorem delete_media_sidecars_mem {db : Db} {mid : Nat} {s : SidecarRow}
    (h : s ∈ (delete_media db mid).sidecars) : s ∈ db.sidecars := by
  unfold delete_media at h
  exact List.mem_of_mem_filter h

theorem delete_media_sidecars_ne {db : Db} {mid : Nat} {s : SidecarRow}
    (h : s ∈ (delete_media db mid).sidecars) : s.media_id ≠ mid := by
  unfold delete_media at h
  simpa using (List.mem_filter.mp h).2

theorem fold_delete_media_mem {missing : List MissingFile} {db : Db} {r : MediaRow}
    (h : r ∈ (missing.foldl (fun d g => delete_media d g.id) db).media) :
    r ∈ db.media := by
  induction missing generalizing db with
  | nil => simpa using h
  | cons g rest ih => exact delete_media_media_mem (ih h)

theorem fold_delete_sidecars_mem {missing : List MissingFile} {db : Db} {s : SidecarRow}
    (h : s ∈ (missing.foldl (fun d g => delete_media d g.id) db).sidecars) :
    s ∈ db.sidecars := by
  induction missing generalizing db with
  | nil => simpa using h
  | cons g rest ih => exact delete_media_sidecars_mem (ih h)

theorem fold_delete_media_ne {missing : List MissingFile} {db : Db}
    {f : MissingFile} (hf : f ∈ missing) {r : MediaRow}
    (h : r ∈ (missing.foldl (fun d g => delete_media d g.id) db).media) :
    r.id ≠ f.id := by
  induction missing generalizing db with
  | nil => simp at hf
  | cons g rest ih =>
    rcases List.mem_cons.mp hf with hg | hrest
    · subst hg
      exact delete_media_media_ne (fold_delete_media_mem h)
    · exact ih hrest h

theorem fold_delete_sidecars_ne {missing : List MissingFile} {db : Db}
    {f : MissingFile} (hf : f ∈ missing) {s : SidecarRow}
    (h : s ∈ (missing.foldl (fun d g => delete_media d g.id) db).sidecars) :
    s.media_id ≠ f.id := by
  induction missing generalizing db with
  | nil => simp at hf
  | cons g rest ih =>
    rcases List.mem_cons.mp hf with hg | hrest
    · subst hg
      exact delete_media_sidecars_ne (fold_delete_sidecars_mem h)
    · exact ih hrest h

/-! ### Claim C1 -/

/-- C1 counterexample: a candidate whose hash already exists in the index
and which carries a sidecar (a.xmp) that the index does not record for that
hash.  The claim demands that exactly this new sidecar be merged into the
existing MediaItem; the code discards the candidate unconditionally, so
after the run the index still has no sidecar row at all. -/
theorem c1_counterexample :
    dbC1.hash_exists candC1.hash = true ∧
    candC1.sidecars ≠ [] ∧
    dbC1.sidecars = [] ∧
    run_import dbC1 "/lib" [candC1] [] (fun _ => true) "2024:06:02 10:00:00.0+09:00" =
      (dbC1, .ok { duplicates_skipped := 1 }) := by
  refine ⟨by decide, by decide, rfl, ?_⟩
  decide

/-- C1 (amended): every candidate whose content hash already exists in the
library index is counted as a duplicate and discarded unconditionally, with
no file copy and no index write; in particular its sidecars are never
merged into the existing MediaItem.  Formally, the dedup step for such a
candidate leaves the batch state unchanged except for the
duplicates_skipped counter (so nothing of the candidate reaches the copy
planning or the commit, which are functions of that state). -/
theorem c1_existing_duplicate_discarded (db : Db) (st : DedupState)
    (c : ImportCandidate) (h : db.hash_exists c.hash = true) :
    dedupStep db st c = { st with duplicates_skipped := st.duplicates_skipped + 1 } := by
  unfold dedupStep
  simp [h]

/-- C1 witness: the amended theorem applied to the concrete duplicate. -/
theorem c1_witness :
    dedupStep dbC1 { inputs := [] } candC1 =
      { table := [], duplicates_skipped := 1, inputs := [] } :=
  c1_existing_duplicate_discarded dbC1 { inputs := [] } candC1 (by decide)

/-! ### Claim C5 -/

/-- C5: the destination relative path of an import candidate is the
media-type folder, the capture date rendered with PATH_DATE_FORMAT, and the
original filename, and it is a pure function of exactly the triple
(media type, capture time, filename): candidates agreeing on the triple get
identical paths. -/
theorem c5_dest_path (c1 c2 : ImportCandidate)
    (hmt : c1.media_type = c2.media_type)
    (hct : c1.created_at = c2.created_at)
    (hfn : c1.filename = c2.filename) :
    dest_rel_path c1 = dest_rel_path c2 ∧
    dest_rel_path c1 =
      c1.media_type.folder_name ++ "/" ++ formatPathDate c1.created_at ++ "/" ++ c1.filename := by
  constructor
  · unfold dest_rel_path rel_path_of
    rw [hmt, hct, hfn]
  · rfl

/-- C5 witness: two candidates with different hashes, sizes and source
paths but the same (type, capture time, filename) triple get the same
destination path. -/
theorem c5_witness :
    dest_rel_path candC5a = dest_rel_path candC5b ∧
    dest_rel_path candC5a =
      candC5a.media_type.folder_name ++ "/" ++ formatPathDate candC5a.created_at
        ++ "/" ++ candC5a.filename :=
  c5_dest_path candC5a candC5b (by decide) (by decide) (by decide)

/-! ### Claim C2 -/

/-- C2: if any planned file copy fails, the import run aborts with the
copy-failure error carrying exactly the failed copies, and the index after
the run is the index before the run; moreover any erroring run (copy
failure or transaction failure) leaves the index unchanged, so rows are
only ever written by the single all-or-nothing transaction of a run in
which every copy succeeded. -/
theorem c2_commit_atomicity :
    (∀ (db : Db) (root : String) (cands : List ImportCandidate)
        (inputs : List String) (copy_ok : FileCopy → Bool) (now : String),
      (∃ fc ∈ dedup_copies (plan_copies root (batchToImport (dedupAll db inputs cands))),
          copy_ok fc = false) →
      run_import db root cands inputs copy_ok now =
        (db, .error (.copy_failed
          ((dedup_copies (plan_copies root (batchToImport (dedupAll db inputs cands)))).filter
            (fun fc => ! copy_ok fc))))) ∧
    (∀ (db : Db) (root : String) (cands : List ImportCandidate)
        (inputs : List String) (copy_ok : FileCopy → Bool) (now : String)
        (e : ImportError),
      (run_import db root cands inputs copy_ok now).2 = .error e →
      (run_import db root cands inputs copy_ok now).1 = db) := by
  constructor
  · intro db root cands inputs copy_ok now hfail
    obtain ⟨fc, hmem, hbad⟩ := hfail
    have hfc : fc ∈ (dedup_copies (plan_copies root (batchToImport (dedupAll db inputs cands)))).filter
        (fun fc => ! copy_ok fc) := by
      rw [List.mem_filter]
      exact ⟨hmem, by simp [hbad]⟩
    have hne : ((dedup_copies (plan_copies root (batchToImport (dedupAll db inputs cands)))).filter
        (fun fc => ! copy_ok fc)).isEmpty = false := by
      rcases hflt : (dedup_copies (plan_copies root (batchToImport (dedupAll db inputs cands)))).filter
          (fun fc => ! copy_ok fc) with _ | ⟨a, l⟩
      · rw [hflt] at hfc; simp at hfc
      · simp
    unfold run_import
    dsimp only
    rw [hne]
    simp
  · intro db root cands inputs copy_ok now e herr
    unfold run_import at herr ⊢
    dsimp only at herr ⊢
    by_cases hempty : ((dedup_copies (plan_copies root (batchToImport (dedupAll db inputs cands)))).filter
        (fun fc => ! copy_ok fc)).isEmpty = true
    · rw [if_pos hempty] at herr ⊢
      rcases hc : commit_all db now (batchToImport (dedupAll db inputs cands)) with _ | ⟨db1, s⟩
      · rfl
      · rw [hc] at herr
        exact Except.noConfusion herr
    · rw [if_neg hempty] at herr ⊢

/-- C2 witness: a run whose only copy fails is aborted with the failure
list and an unchanged index. -/
theorem c2_witness :
    run_import Db.empty "/lib" [candC2] [] (fun _ => false) "t" =
      (Db.empty, .error (.copy_failed
        ((dedup_copies (plan_copies "/lib" (batchToImport (dedupAll Db.empty [] [candC2])))).filter
          (fun fc => ! (fun _ => false) fc)))) :=
  c2_commit_atomicity.1 Db.empty "/lib" [candC2] [] (fun _ => false) "t"
    ⟨{ source := "/srcdir/b.jpg", destination := "/lib/images/2024/05-21/b.jpg" },
      by decide, rfl⟩

/-! ### Claim C9 -/

/-- C9: deleting a MediaItem row removes every sidecar row referencing it
(the ON DELETE CASCADE of the schema), both for a single delete and for the
remove-all resolution of missing-file scan entries; no sidecar row
referencing a deleted MediaItem survives, and the deleted media row itself
is gone. -/
theorem c9_sidecar_cascade :
    (∀ (db : Db) (mid : Nat),
      (∀ r ∈ (delete_media db mid).media, r.id ≠ mid) ∧
      (∀ s ∈ (delete_media db mid).sidecars, s.media_id ≠ mid)) ∧
    (∀ (db : Db) (missing : List MissingFile) (sels : List String)
        (f : MissingFile), f ∈ missing →
      (∀ r ∈ (handle_missing_files db missing "R" sels).media, r.id ≠ f.id) ∧
      (∀ s ∈ (handle_missing_files db missing "R" sels).sidecars, s.media_id ≠ f.id)) := by
  constructor
  · intro db mid
    exact ⟨fun r hr => delete_media_media_ne hr,
           fun s hs => delete_media_sidecars_ne hs⟩
  · intro db missing sels f hf
    have hR : handle_missing_files db missing "R" sels =
        missing.foldl (fun d g => delete_media d g.id) db := rfl
    rw [hR]
    exact ⟨fun r hr => fold_delete_media_ne hf hr,
           fun s hs => fold_delete_sidecars_ne hf hs⟩

/-- C9 witness: resolving one missing file with R leaves no media row and
no sidecar row with its id in the concrete database. -/
theorem c9_witness :
    (∀ r ∈ (handle_missing_files dbC9
        [{ id := 1, filename := "b.jpg", relpath := "images/2024/05-21",
           media_type := "image" }] "R" []).media, r.id ≠ 1) ∧
    (∀ s ∈ (handle_missing_files dbC9
        [{ id := 1, filename := "b.jpg", relpath := "images/2024/05-21",
           media_type := "image" }] "R" []).sidecars, s.media_id ≠ 1) :=
  c9_sidecar_cascade.2 dbC9
    [{ id := 1, filename := "b.jpg", relpath := "images/2024/05-21",
       media_type := "image" }] []
    { id := 1, filename := "b.jpg", relpath := "images/2024/05-21",
      media_type := "image" } (by decide)

/-! ### Claim C10 -/

/-- C10: the keep-both resolution stores the second candidate under the
original digest with the literal suffix "-alt" appended, which is never
equal to the digest of the bytes; duplicate detection compares raw digests,
so a later import of a file with the same bytes is skipped as a duplicate
(because the original entry still stores the raw digest) and a stored
"-alt" hash never matches a raw digest. -/
theorem c10_keep_both_alt :
    (∀ (db : Db) (st : DedupState) (c existing : ImportCandidate),
      db.hash_exists c.hash = false →
      tableLookup st.table c.hash = some existing →
      existing.sidecars ≠ [] → c.sidecars ≠ [] →
      parseDupChoice (st.inputs.headD "") = .both →
      tableLookup (dedupStep db st c).table (c.hash ++ "-alt") =
        some { c with hash := c.hash ++ "-alt" }) ∧
    (∀ h : String, h ++ "-alt" ≠ h) ∧
    (∀ (db : Db) (st : DedupState) (c : ImportCandidate),
      db.hash_exists c.hash = true →
      dedupStep db st c =
        { st with duplicates_skipped := st.duplicates_skipped + 1 }) ∧
    (∀ (r : MediaRow) (h : String), r.hash = h ++ "-alt" → (r.hash == h) = false) := by
  refine ⟨?_, ?_, ?_, ?_⟩
  · intro db st c existing hex hlook hes hcs hchoice
    unfold dedupStep
    rw [hex]
    simp only [Bool.false_eq_true, if_false, hlook]
    rw [if_pos ⟨hes, hcs⟩, hchoice]
    exact tableLookup_tableSet_self st.table (c.hash ++ "-alt") _
  · intro h hcontra
    have hlen : (h ++ "-alt").length = h.length := congrArg String.length hcontra
    rw [String.length_append] at hlen
    exact absurd (by omega : "-alt".length = 0) (by decide)
  · intro db st c hex
    unfold dedupStep
    rw [hex]
    simp
  · intro r h hr
    rcases hb : r.hash == h with _ | _
    · rfl
    · have heq : r.hash = h := eq_of_beq hb
      rw [hr] at heq
      have hlen : (h ++ "-alt").length = h.length := congrArg String.length heq
      rw [String.length_append] at hlen
      exact absurd (by omega : "-alt".length = 0) (by decide)

/-- C10 witness: the keep-both branch taken on a concrete conflicting pair
stores the second candidate under hashC-alt, and a duplicate of the raw
digest is skipped against a database holding the raw digest. -/
theorem c10_witness :
    tableLookup (dedupStep Db.empty
        { table := [("hashC", candC10a)], duplicates_skipped := 0,
          inputs := ["B"] } candC10b).table ("hashC" ++ "-alt") =
      some { candC10b with hash := "hashC" ++ "-alt" } ∧
    dedupStep dbC1 { inputs := [] } { candC10b with hash := "hashA" } =
      { table := [], duplicates_skipped := 1, inputs := [] } :=
  ⟨c10_keep_both_alt.1 Db.empty
      { table := [("hashC", candC10a)], duplicates_skipped := 0, inputs := ["B"] }
      candC10b candC10a (by decide) (by decide) (by decide) (by decide) (by decide),
   c10_keep_both_alt.2.2.1 dbC1 { inputs := [] }
      { candC10b with hash := "hashA" } (by decide)⟩

/-! ### Claim C3 -/

/-- C3 counterexample: a MediaItem whose file_size is exactly
10*1024*1024 bytes IS returned by a search with the size filter parsed
from the string with a leading greater-than sign and 10MB, although the
claim says only strictly larger items match. -/
theorem c3_counterexample :
    rowC3.file_size = 10 * 1024 * 1024 ∧
    ¬ (10 * 1024 * 1024 : Int) < rowC3.file_size ∧
    (search "/lib" dbC3
        { min_size := (parse_size_filter ">10MB").1,
          max_size := (parse_size_filter ">10MB").2 }).map
      (fun res => (res.id, res.file_size)) = [(1, 10485760)] := by
  refine ⟨rfl, by decide, ?_⟩
  decide

/-- C3 (amended): the size filter parsed from the greater-than form with
10MB yields an inclusive lower bound of 10*1024*1024 bytes and no upper
bound, and a search with it returns exactly the MediaItems whose file_size
is at least 10*1024*1024 (items of exactly that size match too). -/
theorem c3_size_filter_inclusive :
    parse_size_filter ">10MB" = (some 10485760, none) ∧
    ∀ (root : String) (db : Db),
      search root db
        { min_size := (parse_size_filter ">10MB").1,
          max_size := (parse_size_filter ">10MB").2 } =
        (sortByCreatedDesc
            (db.media.filter (fun r => decide ((10485760 : Int) ≤ r.file_size)))).map
          (toSearchResult root db) := by
  have hp : parse_size_filter ">10MB" = (some 10485760, none) := by decide
  refine ⟨hp, ?_⟩
  intro root db
  have hq : ({ min_size := (parse_size_filter ">10MB").1,
               max_size := (parse_size_filter ">10MB").2 } : SearchQuery) =
      { min_size := some 10485760, max_size := none } := by rw [hp]
  rw [hq]
  unfold search
  have hrm : ∀ r ∈ db.media,
      row_matches { min_size := some 10485760, max_size := none } r =
        decide ((10485760 : Int) ≤ r.file_size) := by
    intro r _
    unfold row_matches
    simp
  rw [List.filter_congr hrm]
  apply List.filter_eq_self.mpr
  intro res _
  rfl

/-! ### Claim C8 -/

/-- C8: metadata extraction always produces a capture time via the chain
(a) CreateDate with OffsetTime, (b) DateTimeOriginal with
OffsetTimeOriginal, (c) the filesystem creation time, (d) the current local
time, each later fallback used exactly when every earlier step fails; and
extraction failures never remove a recognised, hashable file from the
candidate set (process_source_file still yields a candidate, whose capture
time is the chain result, or the current time when the tool itself is
unavailable). -/
theorem c8_capture_time_chain :
    (∀ (raw : RawExifDates) (fs : Option Timestamp) (loc : Int)
        (now t : Timestamp),
      parse_exif_date raw.create_date raw.offset_time loc = .ok t →
      extract_created_at raw fs loc now = t) ∧
    (∀ (raw : RawExifDates) (fs : Option Timestamp) (loc : Int)
        (now t : Timestamp) (e : String),
      parse_exif_date raw.create_date raw.offset_time loc = .error e →
      parse_exif_date raw.date_time_original raw.offset_time_original loc = .ok t →
      extract_created_at raw fs loc now = t) ∧
    (∀ (raw : RawExifDates) (loc : Int) (now t : Timestamp) (e1 e2 : String),
      parse_exif_date raw.create_date raw.offset_time loc = .error e1 →
      parse_exif_date raw.date_time_original raw.offset_time_original loc = .error e2 →
      extract_created_at raw (some t) loc now = t) ∧
    (∀ (raw : RawExifDates) (loc : Int) (now : Timestamp) (e1 e2 : String),
      parse_exif_date raw.create_date raw.offset_time loc = .error e1 →
      parse_exif_date raw.date_time_original raw.offset_time_original loc = .error e2 →
      extract_created_at raw none loc now = now) ∧
    (∀ (mt : MediaType) (size : Nat) (h : String) (raw : Option RawExifDates)
        (fs : Option Timestamp) (loc : Int) (now : Timestamp)
        (fn ft sp : String) (scs : List SidecarCandidate) (ex : ExifMetadata),
      process_source_file (some mt) size (some h) raw fs loc now fn ft sp scs ex =
        .ok (some
          { source_path := sp, hash := h, media_type := mt, file_size := size,
            created_at :=
              match raw with
              | some r => extract_created_at r fs loc now
              | none => now,
            filename := fn, filetype := ft, sidecars := scs, exif := ex })) := by
  refine ⟨?_, ?_, ?_, ?_, ?_⟩
  · intro raw fs loc now t h
    unfold extract_created_at
    rw [h]
  · intro raw fs loc now t e h1 h2
    unfold extract_created_at
    rw [h1, h2]
  · intro raw loc now t e1 e2 h1 h2
    unfold extract_created_at
    rw [h1, h2]
  · intro raw loc now e1 e2 h1 h2
    unfold extract_created_at
    rw [h1, h2]
  · intro mt size h raw fs loc now fn ft sp scs ex
    rfl

/-- C8 witness: a parsable CreateDate with its offset wins, and with both
date fields empty the filesystem creation time is used. -/
theorem c8_witness :
    extract_created_at rawC8 none 0 tsJune = tsC8 ∧
    extract_created_at rawC8empty (some tsMay) 0 tsJune = tsMay :=
  ⟨c8_capture_time_chain.1 rawC8 none 0 tsJune tsC8 (by decide),
   c8_capture_time_chain.2.2.1 rawC8empty 0 tsJune tsMay "empty date" "empty date"
     (by decide) (by decide)⟩

/-! ### Dedup and commit lemmas for idempotence -/

theorem dedupStep_existing_skip (db : Db) (st : DedupState)
    (c : ImportCandidate) (h : db.hash_exists c.hash = true) :
    dedupStep db st c = { st with duplicates_skipped := st.duplicates_skipped + 1 } := by
  unfold dedupStep
  simp [h]

theorem tableLookup_mem {t : List (String × ImportCandidate)} {k : String}
    {v : ImportCandidate} (h : tableLookup t k = some v) : (k, v) ∈ t := by
  unfold tableLookup at h
  rcases hf : t.find? (fun e => e.1 == k) with _ | e
  · rw [hf] at h; cases h
  · rw [hf] at h
    have hmem := List.mem_of_find?_eq_some hf
    have hpred := List.find?_some hf
    have hk : e.1 = k := by simpa using hpred
    have hv : e.2 = v := by simpa using h
    rcases e with ⟨a, b⟩
    dsimp at hk hv
    rw [← hk, ← hv]
    exact hmem

theorem tableSet_mem {t : List (String × ImportCandidate)} {k : String}
    {v : ImportCandidate} {e : String × ImportCandidate}
    (h : e ∈ tableSet t k v) : e ∈ t ∨ e = (k, v) := by
  unfold tableSet at h
  by_cases hany : t.any (fun e => e.1 == k) = true
  · rw [if_pos hany] at h
    obtain ⟨e', he', heq⟩ := List.mem_map.mp h
    by_cases hk : (e'.1 == k) = true
    · right
      rw [if_pos hk] at heq
      exact heq.symm
    · left
      rw [if_neg hk] at heq
      exact heq ▸ he'
  · rw [if_neg hany] at h
    rcases List.mem_append.mp h with h1 | h1
    · left; exact h1
    · right; simpa using h1

theorem hasKey_tableSet_self (t : List (String × ImportCandidate)) (k : String)
    (v : ImportCandidate) : hasKey (tableSet t k v) k := by
  have := tableLookup_tableSet_self t k v
  exact ⟨(k, v), tableLookup_mem this, rfl⟩

theorem hasKey_tableSet_mono {t : List (String × ImportCandidate)} {h : String}
    (hk : hasKey t h) (k : String) (v : ImportCandidate) :
    hasKey (tableSet t k v) h := by
  obtain ⟨e, he, hek⟩ := hk
  unfold tableSet
  by_cases hany : t.any (fun e => e.1 == k) = true
  · rw [if_pos hany]
    by_cases hkk : (e.1 == k) = true
    · refine ⟨(k, v), List.mem_map.mpr ⟨e, he, if_pos hkk⟩, ?_⟩
      have : e.1 = k := by simpa using hkk
      rw [← this, hek]
    · exact ⟨e, List.mem_map.mpr ⟨e, he, if_neg hkk⟩, hek⟩
  · rw [if_neg hany]
    exact ⟨e, List.mem_append.mpr (Or.inl he), hek⟩

theorem tableSet_inv {t : List (String × ImportCandidate)} {k : String}
    {v : ImportCandidate} (hinv : ∀ e ∈ t, e.2.hash = e.1) (hv : v.hash = k) :
    ∀ e ∈ tableSet t k v, e.2.hash = e.1 := by
  intro e he
  rcases tableSet_mem he with h | h
  · exact hinv e h
  · rw [h]; exact hv

theorem dedupStep_table_inv (db : Db) (st : DedupState) (c : ImportCandidate)
    (hinv : ∀ e ∈ st.table, e.2.hash = e.1) :
    ∀ e ∈ (dedupStep db st c).table, e.2.hash = e.1 := by
  unfold dedupStep
  by_cases hex : db.hash_exists c.hash = true
  · rw [if_pos hex]; exact hinv
  · rw [if_neg hex]
    rcases hlk : tableLookup st.table c.hash with _ | existing
    · exact tableSet_inv hinv rfl
    · dsimp only
      have hkey : existing.hash = c.hash := hinv _ (tableLookup_mem hlk)
      by_cases hcond : existing.sidecars ≠ [] ∧ c.sidecars ≠ []
      · rw [if_pos hcond]
        rcases hch : parseDupChoice (st.inputs.headD "") with _ | _ | _
        · exact hinv
        · exact tableSet_inv hinv rfl
        · exact tableSet_inv hinv rfl
      · rw [if_neg hcond]
        by_cases hemp : c.sidecars = []
        · rw [if_pos hemp]; exact hinv
        · rw [if_neg hemp]; exact tableSet_inv hinv hkey

theorem dedupStep_hasKey_mono (db : Db) (st : DedupState) (c : ImportCandidate)
    {h : String} (hk : hasKey st.table h) :
    hasKey (dedupStep db st c).table h := by
  unfold dedupStep
  by_cases hex : db.hash_exists c.hash = true
  · rw [if_pos hex]; exact hk
  · rw [if_neg hex]
    rcases hlk : tableLookup st.table c.hash with _ | existing
    · exact hasKey_tableSet_mono hk _ _
    · dsimp only
      by_cases hcond : existing.sidecars ≠ [] ∧ c.sidecars ≠ []
      · rw [if_pos hcond]
        rcases hch : parseDupChoice (st.inputs.headD "") with _ | _ | _
        · exact hk
        · exact hasKey_tableSet_mono hk _ _
        · exact hasKey_tableSet_mono hk _ _
      · rw [if_neg hcond]
        by_cases hemp : c.sidecars = []
        · rw [if_pos hemp]; exact hk
        · rw [if_neg hemp]; exact hasKey_tableSet_mono hk _ _

theorem dedupStep_hasKey_new (db : Db) (st : DedupState) (c : ImportCandidate)
    (hex : ¬ db.hash_exists c.hash = true) :
    hasKey (dedupStep db st c).table c.hash := by
  unfold dedupStep
  rw [if_neg hex]
  rcases hlk : tableLookup st.table c.hash with _ | existing
  · exact hasKey_tableSet_self _ _ _
  · dsimp only
    have hk : hasKey st.table c.hash := by
      have hmem := tableLookup_mem hlk
      exact ⟨(c.hash, existing), hmem, rfl⟩
    by_cases hcond : existing.sidecars ≠ [] ∧ c.sidecars ≠ []
    · rw [if_pos hcond]
      rcases hch : parseDupChoice (st.inputs.headD "") with _ | _ | _
      · exact hk
      · exact hasKey_tableSet_mono hk _ _
      · exact hasKey_tableSet_mono hk _ _
    · rw [if_neg hcond]
      by_cases hemp : c.sidecars = []
      · rw [if_pos hemp]; exact hk
      · rw [if_neg hemp]; exact hasKey_tableSet_mono hk _ _

theorem dedupFold_hasKey_mono (db : Db) (cands : List ImportCandidate)
    (st : DedupState) {h : String} (hk : hasKey st.table h) :
    hasKey ((cands.foldl (dedupStep db) st).table) h := by
  induction cands generalizing st with
  | nil => exact hk
  | cons a rest ih =>
    rw [List.foldl_cons]
    exact ih _ (dedupStep_hasKey_mono db st a hk)

theorem dedupFold_inv (db : Db) (cands : List ImportCandidate) (st : DedupState)
    (hinv : ∀ e ∈ st.table, e.2.hash = e.1) :
    ∀ e ∈ ((cands.foldl (dedupStep db) st).table), e.2.hash = e.1 := by
  induction cands generalizing st with
  | nil => exact hinv
  | cons a rest ih =>
    rw [List.foldl_cons]
    exact ih _ (dedupStep_table_inv db st a hinv)

theorem dedupFold_covers (db : Db) (cands : List ImportCandidate) (st : DedupState) :
    ∀ c ∈ cands, db.hash_exists c.hash = true ∨
      hasKey ((cands.foldl (dedupStep db) st).table) c.hash := by
  induction cands generalizing st with
  | nil => intro c hc; simp at hc
  | cons a rest ih =>
    intro c hc
    rcases List.mem_cons.mp hc with rfl | hrest
    · by_cases hex : db.hash_exists c.hash = true
      · left; exact hex
      · right
        rw [List.foldl_cons]
        exact dedupFold_hasKey_mono db rest _ (dedupStep_hasKey_new db st c hex)
    · rw [List.foldl_cons]
      exact ih _ c hrest

theorem insert_sidecar_media {db : Db} {mid : Nat} {sc : SidecarCandidate}
    {db' : Db} (h : insert_sidecar db mid sc = some db') :
    db'.media = db.media := by
  unfold insert_sidecar at h
  by_cases hc : db.sidecars.any
      (fun r => r.media_id == mid && r.filename == sc.filename) = true
  · rw [if_pos hc] at h; cases h
  · rw [if_neg hc] at h
    have := Option.some.injEq _ _ ▸ h
    simp only [Option.some.injEq] at h
    rw [← h]

theorem commit_sidecar_media {mid : Nat} {p q : Db × ImportStats}
    {sc : SidecarCandidate} (h : commit_sidecar mid p sc = some q) :
    q.1.media = p.1.media := by
  unfold commit_sidecar at h
  rcases hins : insert_sidecar p.1 mid sc with _ | db2
  · rw [hins] at h; cases h
  · rw [hins] at h
    have h2 : some (db2, { p.2 with sidecars_imported := p.2.sidecars_imported + 1 }) = some q := h
    rw [Option.some.injEq] at h2
    rw [← h2]
    exact insert_sidecar_media hins

theorem sidecar_fold_media {scs : List SidecarCandidate} {mid : Nat}
    {p q : Db × ImportStats} (h : scs.foldlM (commit_sidecar mid) p = some q) :
    q.1.media = p.1.media := by
  induction scs generalizing p with
  | nil =>
    have h2 : some p = some q := h
    rw [Option.some.injEq] at h2
    rw [← h2]
  | cons sc rest ih =>
    rw [List.foldlM_cons] at h
    rcases hstep : commit_sidecar mid p sc with _ | p1
    · rw [hstep] at h; cases h
    · rw [hstep] at h
      have h2 : rest.foldlM (commit_sidecar mid) p1 = some q := h
      rw [ih h2, commit_sidecar_media hstep]

theorem commit_one_media_eq {now : String} {acc q : Db × ImportStats}
    {c : ImportCandidate} (h : commit_one now acc c = some q) :
    ∃ row : MediaRow, row.hash = c.hash ∧ q.1.media = acc.1.media ++ [row] := by
  unfold commit_one at h
  rcases hins : insert_media acc.1 c now with _ | p
  · rw [hins] at h; cases h
  · obtain ⟨db1, mid⟩ := p
    rw [hins] at h
    have h2 : ∃ s1 : ImportStats,
        c.sidecars.foldlM (commit_sidecar mid) (db1, s1) = some q := by
      cases c.media_type
      · exact ⟨_, h⟩
      · exact ⟨_, h⟩
    obtain ⟨s1, h3⟩ := h2
    have hq : q.1.media = db1.media := sidecar_fold_media h3
    unfold insert_media at hins
    by_cases hex : acc.1.hash_exists c.hash = true
    · rw [if_pos hex] at hins; cases hins
    · rw [if_neg hex] at hins
      rw [Option.some.injEq, Prod.mk.injEq] at hins
      obtain ⟨hdb1, hmid⟩ := hins
      refine ⟨{ id := acc.1.next_media_id, hash := c.hash, filename := c.filename,
                relpath := rel_path_of c, media_type := c.media_type,
                filetype := c.filetype, file_size := (c.file_size : Int),
                created_at := formatDbDate c.created_at, imported_at := now,
                exif := c.exif }, rfl, ?_⟩
      rw [hq, ← hdb1]

theorem commit_fold_facts (now : String) (cs : List ImportCandidate) :
    ∀ (acc q : Db × ImportStats), cs.foldlM (commit_one now) acc = some q →
      (∀ r ∈ acc.1.media, r ∈ q.1.media) ∧
      (∀ c ∈ cs, ∃ r ∈ q.1.media, r.hash = c.hash) := by
  induction cs with
  | nil =>
    intro acc q h
    have h2 : some acc = some q := h
    rw [Option.some.injEq] at h2
    rw [← h2]
    exact ⟨fun r hr => hr, fun c hc => absurd hc (List.not_mem_nil c)⟩
  | cons c rest ih =>
    intro acc q h
    rw [List.foldlM_cons] at h
    rcases hstep : commit_one now acc c with _ | acc1
    · rw [hstep] at h; cases h
    · rw [hstep] at h
      have h2 : rest.foldlM (commit_one now) acc1 = some q := h
      obtain ⟨row, hrow, hmedia⟩ := commit_one_media_eq hstep
      obtain ⟨hpres, hnew⟩ := ih acc1 q h2
      constructor
      · intro r hr
        exact hpres r (hmedia ▸ List.mem_append.mpr (Or.inl hr))
      · intro c' hc'
        rcases List.mem_cons.mp hc' with rfl | hrest
        · refine ⟨row, hpres row ?_, hrow⟩
          rw [hmedia]
          exact List.mem_append.mpr (Or.inr (List.mem_singleton.mpr rfl))
        · exact hnew c' hrest

theorem run_import_ok {db : Db} {root : String} {cands : List ImportCandidate}
    {inputs : List String} {copy_ok : FileCopy → Bool} {now : String}
    {db1 : Db} {s : ImportStats}
    (h : run_import db root cands inputs copy_ok now = (db1, .ok s)) :
    ∃ s', commit_all db now (batchToImport (dedupAll db inputs cands)) = some (db1, s') := by
  unfold run_import at h
  dsimp only at h
  by_cases hempty : ((dedup_copies (plan_copies root (batchToImport (dedupAll db inputs cands)))).filter
      (fun fc => ! copy_ok fc)).isEmpty = true
  · rw [if_pos hempty] at h
    rcases hc : commit_all db now (batchToImport (dedupAll db inputs cands)) with _ | ⟨db2, s2⟩
    · rw [hc] at h
      rw [Prod.mk.injEq] at h
      exact absurd h.2 (fun hcon => Except.noConfusion hcon)
    · rw [hc] at h
      rw [Prod.mk.injEq] at h
      exact ⟨s2, by rw [h.1]⟩
  · rw [if_neg hempty] at h
    rw [Prod.mk.injEq] at h
    exact absurd h.2 (fun hcon => Except.noConfusion hcon)

theorem run_import_ok_hash_exists {db : Db} {root : String}
    {cands : List ImportCandidate} {inputs : List String}
    {copy_ok : FileCopy → Bool} {now : String} {db1 : Db} {s : ImportStats}
    (h : run_import db root cands inputs copy_ok now = (db1, .ok s)) :
    ∀ c ∈ cands, db1.hash_exists c.hash = true := by
  obtain ⟨s', hc⟩ := run_import_ok h
  obtain ⟨hpres, hnew⟩ := commit_fold_facts now (batchToImport (dedupAll db inputs cands)) (db, {}) (db1, s') hc
  intro c hcmem
  rcases dedupFold_covers db cands { inputs := inputs } c hcmem with hex | hkey
  · obtain ⟨r, hr, hrh⟩ := List.any_eq_true.mp hex
    exact List.any_eq_true.mpr ⟨r, hpres r hr, hrh⟩
  · obtain ⟨e, he, hek⟩ := hkey
    have hval : e.2.hash = e.1 :=
      dedupFold_inv db cands { inputs := inputs } (by intro e he'; simp at he') e he
    have hsel : e.2 ∈ batchToImport (dedupAll db inputs cands) :=
      List.mem_map.mpr ⟨e, he, rfl⟩
    obtain ⟨r, hr, hrh⟩ := hnew e.2 hsel
    refine List.any_eq_true.mpr ⟨r, hr, ?_⟩
    have : r.hash = c.hash := by rw [hrh, hval, hek]
    simpa using this

theorem dedupFold_all_dup (db : Db) (cands : List ImportCandidate)
    (st : DedupState) (hall : ∀ c ∈ cands, db.hash_exists c.hash = true) :
    cands.foldl (dedupStep db) st =
      { st with duplicates_skipped := st.duplicates_skipped + cands.length } := by
  induction cands generalizing st with
  | nil => simp
  | cons a rest ih =>
    rw [List.foldl_cons, dedupStep_existing_skip db st a (hall a (List.mem_cons_self a rest))]
    rw [ih _ (fun c hc => hall c (List.mem_cons_of_mem a hc))]
    congr 1
    simp only [List.length_cons]
    omega

theorem run_import_all_dup (db : Db) (root : String)
    (cands : List ImportCandidate) (inputs : List String)
    (copy_ok : FileCopy → Bool) (now : String)
    (hall : ∀ c ∈ cands, db.hash_exists c.hash = true) :
    run_import db root cands inputs copy_ok now =
      (db, .ok { duplicates_skipped := cands.length }) := by
  have hded : dedupAll db inputs cands =
      { table := [], duplicates_skipped := cands.length, inputs := inputs } := by
    unfold dedupAll
    rw [dedupFold_all_dup db cands _ hall]
    simp
  unfold run_import
  rw [hded]
  rfl

/-! ### Claim C7 -/

/-- C7: importing the same unchanged candidate set a second time, after a
first import that committed successfully, changes nothing: the index after
the second run equals the index after the first, zero rows are inserted,
and every candidate is reported as a duplicate skipped. -/
theorem c7_idempotent (db : Db) (root : String) (cands : List ImportCandidate)
    (i1 : List String) (ok1 : FileCopy → Bool) (n1 : String) (db1 : Db)
    (s1 : ImportStats) (i2 : List String) (ok2 : FileCopy → Bool) (n2 : String)
    (h : run_import db root cands i1 ok1 n1 = (db1, .ok s1)) :
    run_import db1 root cands i2 ok2 n2 =
      (db1, .ok { duplicates_skipped := cands.length }) :=
  run_import_all_dup db1 root cands i2 ok2 n2 (run_import_ok_hash_exists h)

/-- C7 witness: a concrete second import of the same single-file source is
a no-op reporting one duplicate. -/
theorem c7_witness :
    run_import dbC7 "/lib" [candC2] [] (fun _ => true) "t2" =
      (dbC7, .ok { duplicates_skipped := 1 }) :=
  c7_idempotent Db.empty "/lib" [candC2] [] (fun _ => true) "t1" dbC7
    { images_imported := 1 } [] (fun _ => true) "t2" (by decide)

/-! ### Hash uniqueness lemmas -/

theorem commit_one_not_exists {now : String} {acc q : Db × ImportStats}
    {c : ImportCandidate} (h : commit_one now acc c = some q) :
    acc.1.hash_exists c.hash = false := by
  unfold commit_one at h
  rcases hins : insert_media acc.1 c now with _ | p
  · rw [hins] at h; cases h
  · unfold insert_media at hins
    by_cases hex : acc.1.hash_exists c.hash = true
    · rw [if_pos hex] at hins; cases hins
    · simpa using hex

theorem commit_one_pairwise {now : String} {acc q : Db × ImportStats}
    {c : ImportCandidate} (h : commit_one now acc c = some q)
    (hp : acc.1.media.Pairwise (fun r1 r2 => r1.hash ≠ r2.hash)) :
    q.1.media.Pairwise (fun r1 r2 => r1.hash ≠ r2.hash) := by
  obtain ⟨row, hrow, hmedia⟩ := commit_one_media_eq h
  have hfresh := commit_one_not_exists h
  rw [hmedia, List.pairwise_append]
  refine ⟨hp, List.pairwise_singleton _ _, ?_⟩
  intro a ha b hb
  rw [List.mem_singleton.mp hb, hrow]
  intro hcon
  have : acc.1.media.any (fun r => r.hash == c.hash) = true :=
    List.any_eq_true.mpr ⟨a, ha, by simpa using hcon⟩
  rw [Db.hash_exists] at hfresh
  rw [hfresh] at this
  cases this

theorem commit_fold_pairwise (now : String) (cs : List ImportCandidate) :
    ∀ (acc q : Db × ImportStats), cs.foldlM (commit_one now) acc = some q →
      acc.1.media.Pairwise (fun r1 r2 => r1.hash ≠ r2.hash) →
      q.1.media.Pairwise (fun r1 r2 => r1.hash ≠ r2.hash) := by
  induction cs with
  | nil =>
    intro acc q h hp
    have h2 : some acc = some q := h
    rw [Option.some.injEq] at h2
    rw [← h2]
    exact hp
  | cons c rest ih =>
    intro acc q h hp
    rw [List.foldlM_cons] at h
    rcases hstep : commit_one now acc c with _ | acc1
    · rw [hstep] at h; cases h
    · rw [hstep] at h
      have h2 : rest.foldlM (commit_one now) acc1 = some q := h
      exact ih acc1 q h2 (commit_one_pairwise hstep hp)

theorem run_import_pairwise (db : Db) (root : String)
    (cands : List ImportCandidate) (inputs : List String)
    (copy_ok : FileCopy → Bool) (now : String)
    (hp : db.media.Pairwise (fun r1 r2 => r1.hash ≠ r2.hash)) :
    (run_import db root cands inputs copy_ok now).1.media.Pairwise
      (fun r1 r2 => r1.hash ≠ r2.hash) := by
  unfold run_import
  dsimp only
  by_cases hempty : ((dedup_copies (plan_copies root (batchToImport (dedupAll db inputs cands)))).filter
      (fun fc => ! copy_ok fc)).isEmpty = true
  · rw [if_pos hempty]
    rcases hc : commit_all db now (batchToImport (dedupAll db inputs cands)) with _ | ⟨db1, s⟩
    · exact hp
    · exact commit_fold_pairwise now _ (db, {}) (db1, s) hc hp
  · rw [if_neg hempty]
    exact hp

theorem delete_media_pairwise {db : Db} {mid : Nat}
    (hp : db.media.Pairwise (fun r1 r2 => r1.hash ≠ r2.hash)) :
    (delete_media db mid).media.Pairwise (fun r1 r2 => r1.hash ≠ r2.hash) :=
  List.Pairwise.sublist (List.filter_sublist _) hp

theorem fold_delete_pairwise (missing : List MissingFile) :
    ∀ db : Db, db.media.Pairwise (fun r1 r2 => r1.hash ≠ r2.hash) →
      (missing.foldl (fun d g => delete_media d g.id) db).media.Pairwise
        (fun r1 r2 => r1.hash ≠ r2.hash) := by
  induction missing with
  | nil => intro db hp; exact hp
  | cons g rest ih =>
    intro db hp
    rw [List.foldl_cons]
    exact ih _ (delete_media_pairwise hp)

theorem fold_select_pairwise (missing : List MissingFile) :
    ∀ p : Db × List String, p.1.media.Pairwise (fun r1 r2 => r1.hash ≠ r2.hash) →
      ((missing.foldl
        (fun (p : Db × List String) f =>
          if asciiLower (strTrim (p.2.headD "")) = "y" then
            (delete_media p.1 f.id, p.2.tail)
          else
            (p.1, p.2.tail)) p)).1.media.Pairwise (fun r1 r2 => r1.hash ≠ r2.hash) := by
  induction missing with
  | nil => intro p hp; exact hp
  | cons g rest ih =>
    intro p hp
    rw [List.foldl_cons]
    by_cases hy : asciiLower (strTrim (p.2.headD "")) = "y"
    · rw [if_pos hy]
      exact ih _ (delete_media_pairwise hp)
    · rw [if_neg hy]
      exact ih _ hp

theorem handle_missing_pairwise (db : Db) (missing : List MissingFile)
    (choice : String) (sels : List String)
    (hp : db.media.Pairwise (fun r1 r2 => r1.hash ≠ r2.hash)) :
    (handle_missing_files db missing choice sels).media.Pairwise
      (fun r1 r2 => r1.hash ≠ r2.hash) := by
  unfold handle_missing_files
  split
  · exact fold_delete_pairwise missing db hp
  · exact fold_select_pairwise missing (db, sels) hp
  · exact hp

theorem handle_orphaned_media (db : Db) (orphaned : List Nat) (input : String) :
    (handle_orphaned_sidecars db orphaned input).media = db.media := by
  unfold handle_orphaned_sidecars
  split
  · rfl
  · rfl

theorem handle_modified_media (db : Db) (mods : List (Nat × String))
    (input : String) (now : String) :
    (handle_modified_sidecars db mods input now).media = db.media := by
  unfold handle_modified_sidecars
  split
  · rfl
  · rfl

/-! ### Claim C4 -/

/-- C4: at every state reachable by the library's operations (imports, the
scan resolutions, pushes), no two media rows store the same hash value; in
particular the claim holds with its keep-both exception, since the
keep-both entry is stored under the disambiguated "-alt" identity and
therefore never collides with any stored hash either (and the UNIQUE
constraint on the hash column makes any colliding insert roll the whole
transaction back). -/
theorem c4_hash_unique (db : Db) (h : Reachable db) :
    db.media.Pairwise (fun r1 r2 => r1.hash ≠ r2.hash) := by
  induction h with
  | create => exact List.Pairwise.nil
  | import_op db root cands inputs copy_ok now hr ih =>
      exact run_import_pairwise db root cands inputs copy_ok now ih
  | missing_op db missing choice selections hr ih =>
      exact handle_missing_pairwise db missing choice selections ih
  | orphaned_op db orphaned input hr ih =>
      rw [handle_orphaned_media db orphaned input]
      exact ih
  | modified_op db mods input now hr ih =>
      rw [handle_modified_media db mods input now]
      exact ih
  | push_op db target now files bytes hr ih =>
      exact ih

/-- C4 witness: the invariant evaluated on a concrete reachable state (the
database produced by importing one file into a fresh library). -/
theorem c4_witness :
    (run_import Db.empty "/lib" [candC2] [] (fun _ => true) "t1").1.media.Pairwise
      (fun r1 r2 => r1.hash ≠ r2.hash) :=
  c4_hash_unique _
    (Reachable.import_op Db.empty "/lib" [candC2] [] (fun _ => true) "t1"
      Reachable.create)

/-! ### Lexicographic order on character lists

The List Char order in scope is lexicographic (List.Lex over the character
order), which is exactly how SQLite compares the stored TEXT (memcmp over
UTF-8 bytes, equal to code-point order). -/

theorem lexLt_cons_iff {a b : Char} {l1 l2 : List Char} :
    (a :: l1) < (b :: l2) ↔ a < b ∨ (a = b ∧ l1 < l2) := by
  constructor
  · intro h
    cases h with
    | cons h => exact Or.inr ⟨rfl, h⟩
    | rel h => exact Or.inl h
  · intro h
    rcases h with h | ⟨rfl, h⟩
    · exact List.Lex.rel h
    · exact List.Lex.cons h

theorem lexLt_asymm : ∀ {l1 l2 : List Char}, l1 < l2 → ¬ l2 < l1 := by
  intro l1 l2 h
  induction h with
  | nil => intro hc; cases hc
  | @cons a l1 l2 h ih =>
      intro hc
      cases hc with
      | cons h2 => exact ih h2
      | rel h2 => exact lt_irrefl a h2
  | @rel a l1 b l2 h =>
      intro hc
      cases hc with
      | cons h2 => exact lt_irrefl a h
      | rel h2 => exact lt_irrefl a (h.trans h2)

theorem lexLt_irrefl (l : List Char) : ¬ l < l := fun h => lexLt_asymm h h

theorem lexLt_append_left : ∀ (p : List Char) {u v : List Char},
    (p ++ u) < (p ++ v) ↔ u < v := by
  intro p
  induction p with
  | nil => intro u v; exact Iff.rfl
  | cons c p ih =>
      intro u v
      rw [List.cons_append, List.cons_append, lexLt_cons_iff]
      have hc : ¬ (c < c) := lt_irrefl c
      simp [hc, ih]

theorem lexLt_append_cons_left (p : List Char) (c : Char) {u v : List Char} :
    (p ++ c :: u) < (p ++ c :: v) ↔ u < v := by
  rw [lexLt_append_left p, lexLt_cons_iff]
  have hc : ¬ (c < c) := lt_irrefl c
  simp [hc]

theorem lexLt_append_of_lt : ∀ {A B : List Char}, A < B → A.length = B.length →
    ∀ u v : List Char, (A ++ u) < (B ++ v) := by
  intro A B h
  induction h with
  | nil =>
      intro hlen
      simp at hlen
  | @cons a l1 l2 h ih =>
      intro hlen u v
      rw [List.cons_append, List.cons_append]
      exact List.Lex.cons (ih (by simpa using hlen) u v)
  | @rel a l1 b l2 h =>
      intro hlen u v
      exact List.Lex.rel h

theorem zeros_eq : ∀ {z1 z2 : List Char}, (∀ x ∈ z1, x = '0') →
    (∀ x ∈ z2, x = '0') → z1.length = z2.length → z1 = z2 := by
  intro z1
  induction z1 with
  | nil =>
      intro z2 _ _ hlen
      rcases z2 with _ | ⟨d, z2⟩
      · rfl
      · simp at hlen
  | cons c z1 ih =>
      intro z2 h1 h2 hlen
      rcases z2 with _ | ⟨d, z2⟩
      · simp at hlen
      · have hc : c = '0' := h1 c (List.mem_cons_self c z1)
        have hd : d = '0' := h2 d (List.mem_cons_self d z2)
        rw [hc, hd, ih (fun x hx => h1 x (List.mem_cons_of_mem c hx))
          (fun x hx => h2 x (List.mem_cons_of_mem d hx)) (by simpa using hlen)]

theorem zeros_lt : ∀ {z w : List Char}, (∀ x ∈ z, x = '0') →
    (∀ x ∈ w, isDigitChar x) → z.length = w.length →
    (∃ x ∈ w, x ≠ '0') → z < w := by
  intro z
  induction z with
  | nil =>
      intro w _ _ hlen hex
      obtain ⟨x, hx, _⟩ := hex
      rcases w with _ | ⟨d, w⟩
      · simp at hx
      · simp at hlen
  | cons c z ih =>
      intro w h1 h2 hlen hex
      rcases w with _ | ⟨d, w⟩
      · simp at hlen
      · have hc : c = '0' := h1 c (List.mem_cons_self c z)
        by_cases hd : d = '0'
        · have hex2 : ∃ x ∈ w, x ≠ '0' := by
            obtain ⟨x, hx, hxne⟩ := hex
            rcases List.mem_cons.mp hx with rfl | hx2
            · exact absurd hd hxne
            · exact ⟨x, hx2, hxne⟩
          rw [hc, hd]
          exact List.Lex.cons (ih (fun x hx => h1 x (List.mem_cons_of_mem c hx))
            (fun x hx => h2 x (List.mem_cons_of_mem d hx)) (by simpa using hlen) hex2)
        · have hlt : '0' < d :=
            lt_of_le_of_ne (h2 d (List.mem_cons_self d w)).1 (Ne.symm hd)
          rw [hc]
          exact List.Lex.rel hlt

theorem list_split_cases : ∀ (l1 l2 : List Char),
    l1 = l2 ∨
    (∃ b B, l2 = l1 ++ b :: B) ∨
    (∃ b B, l1 = l2 ++ b :: B) ∨
    (∃ p a A b B, l1 = p ++ a :: A ∧ l2 = p ++ b :: B ∧ a ≠ b) := by
  intro l1
  induction l1 with
  | nil =>
      intro l2
      rcases l2 with _ | ⟨b, B⟩
      · exact Or.inl rfl
      · exact Or.inr (Or.inl ⟨b, B, rfl⟩)
  | cons a A ih =>
      intro l2
      rcases l2 with _ | ⟨b, B⟩
      · exact Or.inr (Or.inr (Or.inl ⟨a, A, rfl⟩))
      · by_cases hab : a = b
        · subst hab
          rcases ih B with h | ⟨c, C, h⟩ | ⟨c, C, h⟩ | ⟨p, x, X, y, Y, hx, hy, hxy⟩
          · exact Or.inl (by rw [h])
          · exact Or.inr (Or.inl ⟨c, C, by rw [h]; rfl⟩)
          · exact Or.inr (Or.inr (Or.inl ⟨c, C, by rw [h]; rfl⟩))
          · exact Or.inr (Or.inr (Or.inr
              ⟨a :: p, x, X, y, Y, by rw [hx]; rfl, by rw [hy]; rfl, hxy⟩))
        · exact Or.inr (Or.inr (Or.inr ⟨[], a, A, b, B, rfl, rfl, hab⟩))

/-! ### Decimal digit and zero-padded numeral lemmas -/

theorem digitChar_bounds {n : Nat} (h : n ≤ 9) :
    '0' ≤ digitChar n ∧ digitChar n ≤ '9' := by
  unfold digitChar
  interval_cases n <;> exact ⟨by decide, by decide⟩

theorem digitChar_isDigit {n : Nat} (h : n ≤ 9) : isDigitChar (digitChar n) :=
  digitChar_bounds h

theorem digitChar_lt_iff {a b : Nat} (ha : a ≤ 9) (hb : b ≤ 9) :
    digitChar a < digitChar b ↔ a < b := by
  unfold digitChar
  interval_cases a <;> interval_cases b <;> simp

theorem digitChar_eq_iff {a b : Nat} (ha : a ≤ 9) (hb : b ≤ 9) :
    digitChar a = digitChar b ↔ a = b := by
  unfold digitChar
  interval_cases a <;> interval_cases b <;> simp

theorem padNum_length : ∀ (w n : Nat), (padNum w n).length = w := by
  intro w
  induction w with
  | zero => intro n; rfl
  | succ w ih => intro n; simp [padNum, ih]

theorem padNum_quot_le {w n : Nat} (h : n < 10 ^ (w + 1)) : n / 10 ^ w ≤ 9 := by
  have hpos : 0 < 10 ^ w := Nat.pos_pow_of_pos w (by norm_num)
  have : n / 10 ^ w < 10 := by
    rw [Nat.div_lt_iff_lt_mul hpos]
    calc n < 10 ^ (w + 1) := h
    _ = 10 * 10 ^ w := by rw [pow_succ]; ring
  omega

theorem padNum_digits : ∀ (w n : Nat), n < 10 ^ w → ∀ x ∈ padNum w n, isDigitChar x := by
  intro w
  induction w with
  | zero => intro n _ x hx; simp [padNum] at hx
  | succ w ih =>
      intro n hn x hx
      rcases List.mem_cons.mp hx with rfl | hx2
      · exact digitChar_isDigit (padNum_quot_le hn)
      · exact ih (n % 10 ^ w)
          (Nat.mod_lt n (Nat.pos_pow_of_pos w (by norm_num))) x hx2

theorem div_mod_lt_iff (P a b : Nat) (hP : 0 < P) :
    a < b ↔ (a / P < b / P ∨ (a / P = b / P ∧ a % P < b % P)) := by
  constructor
  · intro h
    rcases Nat.lt_or_ge (a / P) (b / P) with hlt | hge
    · exact Or.inl hlt
    · have heq : a / P = b / P :=
        Nat.le_antisymm (Nat.div_le_div_right (Nat.le_of_lt h)) hge
      refine Or.inr ⟨heq, ?_⟩
      have ha := Nat.div_add_mod a P
      have hb := Nat.div_add_mod b P
      have h2 : P * (b / P) + a % P < P * (b / P) + b % P := by
        rw [heq] at ha
        rw [ha, hb]
        exact h
      exact Nat.lt_of_add_lt_add_left h2
  · intro h
    rcases h with hlt | ⟨heq, hmod⟩
    · calc a = P * (a / P) + a % P := (Nat.div_add_mod a P).symm
        _ < P * (a / P) + P := Nat.add_lt_add_left (Nat.mod_lt a hP) _
        _ = P * (a / P + 1) := by ring
        _ ≤ P * (b / P) := Nat.mul_le_mul_left P (Nat.succ_le_of_lt hlt)
        _ ≤ P * (b / P) + b % P := Nat.le_add_right _ _
        _ = b := Nat.div_add_mod b P
    · calc a = P * (a / P) + a % P := (Nat.div_add_mod a P).symm
        _ = P * (b / P) + a % P := by rw [heq]
        _ < P * (b / P) + b % P := Nat.add_lt_add_left hmod _
        _ = b := Nat.div_add_mod b P

theorem padNum_lt_iff : ∀ (w a b : Nat), a < 10 ^ w → b < 10 ^ w →
    (padNum w a < padNum w b ↔ a < b) := by
  intro w
  induction w with
  | zero =>
      intro a b ha hb
      constructor
      · intro h
        exact absurd h (by intro hc; cases hc)
      · intro h
        exact absurd h (by simp at ha hb; omega)
  | succ w ih =>
      intro a b ha hb
      have hpos : 0 < 10 ^ w := Nat.pos_pow_of_pos w (by norm_num)
      show (digitChar (a / 10 ^ w) :: padNum w (a % 10 ^ w)) <
        (digitChar (b / 10 ^ w) :: padNum w (b % 10 ^ w)) ↔ a < b
      rw [lexLt_cons_iff, digitChar_lt_iff (padNum_quot_le ha) (padNum_quot_le hb),
        digitChar_eq_iff (padNum_quot_le ha) (padNum_quot_le hb),
        ih _ _ (Nat.mod_lt a hpos) (Nat.mod_lt b hpos)]
      exact (div_mod_lt_iff (10 ^ w) a b hpos).symm

theorem padNum_peel : ∀ (w n : Nat), n < 10 ^ (w + 1) →
    padNum (w + 1) n = padNum w (n / 10) ++ [digitChar (n % 10)] := by
  intro w
  induction w with
  | zero =>
      intro n h
      have h10 : n < 10 := by simpa using h
      show [digitChar (n / 10 ^ 0)] = [] ++ [digitChar (n % 10)]
      simp [Nat.mod_eq_of_lt h10]
  | succ w ih =>
      intro n h
      have hsub : n % 10 ^ (w + 1) < 10 ^ (w + 1) :=
        Nat.mod_lt n (Nat.pos_pow_of_pos _ (by norm_num))
      show digitChar (n / 10 ^ (w + 1)) :: padNum (w + 1) (n % 10 ^ (w + 1)) =
        (digitChar (n / 10 / 10 ^ w) :: padNum w (n / 10 % 10 ^ w)) ++ [digitChar (n % 10)]
      rw [List.cons_append]
      have hq : n / 10 / 10 ^ w = n / 10 ^ (w + 1) := by
        rw [Nat.div_div_eq_div_mul]
        congr 1
        rw [pow_succ']
      have hm1 : n % 10 ^ (w + 1) / 10 = n / 10 % 10 ^ w := by
        rw [pow_succ']
        exact Nat.mod_mul_right_div_self n 10 (10 ^ w)
      have hm2 : n % 10 ^ (w + 1) % 10 = n % 10 :=
        Nat.mod_mod_of_dvd n (dvd_pow_self 10 (Nat.succ_ne_zero w))
      rw [ih (n % 10 ^ (w + 1)) hsub, hq, hm1, hm2]

theorem padNum_getLast (w n : Nat) (h : n < 10 ^ (w + 1)) :
    (padNum (w + 1) n).getLast? = some (digitChar (n % 10)) := by
  rw [padNum_peel w n h, List.getLast?_append]
  rfl

/-! ### The subsecond reduction of the time crate -/

theorem subsecReduce_spec : ∀ (w v : Nat), 1 ≤ w → v < 10 ^ w →
    1 ≤ (subsecReduce v w).2 ∧ (subsecReduce v w).2 ≤ w ∧
    (subsecReduce v w).1 < 10 ^ (subsecReduce v w).2 ∧
    padNum w v = padNum (subsecReduce v w).2 (subsecReduce v w).1 ++
      List.replicate (w - (subsecReduce v w).2) '0' ∧
    ((subsecReduce v w).2 = 1 ∨ (subsecReduce v w).1 % 10 ≠ 0) := by
  intro w
  induction w with
  | zero => intro v h; omega
  | succ w ih =>
      intro v h1 hv
      rcases w with _ | w'
      · refine ⟨le_refl 1, le_refl 1, by simpa using hv, by simp [subsecReduce], Or.inl rfl⟩
      · by_cases hmod : v % 10 = 0
        · have hstep : subsecReduce v (w' + 2) = subsecReduce (v / 10) (w' + 1) := by
            show (if v % 10 = 0 then subsecReduce (v / 10) (w' + 1) else (v, w' + 2)) = _
            rw [if_pos hmod]
          have hv10 : v / 10 < 10 ^ (w' + 1) := by
            rw [Nat.div_lt_iff_lt_mul (by norm_num)]
            calc v < 10 ^ (w' + 2) := hv
            _ = 10 ^ (w' + 1) * 10 := by rw [pow_succ]
          obtain ⟨ha, hb, hc, hd, he⟩ := ih (v / 10) (by omega) hv10
          rw [hstep]
          refine ⟨ha, by omega, hc, ?_, he⟩
          rw [padNum_peel (w' + 1) v hv, hmod, hd, List.append_assoc]
          have hz : digitChar 0 = '0' := by decide
          rw [hz, ← List.replicate_succ' ]
          have harith : w' + 1 - (subsecReduce (v / 10) (w' + 1)).2 + 1 =
              w' + 2 - (subsecReduce (v / 10) (w' + 1)).2 := by omega
          rw [harith]
        · have hstep : subsecReduce v (w' + 2) = (v, w' + 2) := by
            show (if v % 10 = 0 then subsecReduce (v / 10) (w' + 1) else (v, w' + 2)) = _
            rw [if_neg hmod]
          rw [hstep]
          exact ⟨by omega, le_refl _, hv, by simp, Or.inr hmod⟩

/-! ### Comparison of reduced-subsecond renderings -/

theorem stripped_append_lt_iff (D1 Z1 D2 Z2 : List Char) (c : Char) (r : List Char)
    (hc : c < '0')
    (hd1 : ∀ x ∈ D1, isDigitChar x) (hd2 : ∀ x ∈ D2, isDigitChar x)
    (hz1 : ∀ x ∈ Z1, x = '0') (hz2 : ∀ x ∈ Z2, x = '0')
    (hne1 : D1 ≠ []) (hne2 : D2 ≠ [])
    (hlast1 : ∀ x, D1.getLast? = some x → x ≠ '0' ∨ D1.length = 1)
    (hlast2 : ∀ x, D2.getLast? = some x → x ≠ '0' ∨ D2.length = 1)
    (hlen : (D1 ++ Z1).length = (D2 ++ Z2).length) :
    ((D1 ++ c :: r) < (D2 ++ c :: r)) ↔ ((D1 ++ Z1) < (D2 ++ Z2)) := by
  rcases list_split_cases D1 D2 with heq | ⟨b, B, hB⟩ | ⟨b, B, hB⟩ |
      ⟨p, a, A, b, B, hA, hB, hab⟩
  · subst heq
    have hzeq : Z1 = Z2 := by
      refine zeros_eq hz1 hz2 ?_
      simp only [List.length_append] at hlen
      omega
    rw [hzeq]
    exact iff_of_false (lexLt_irrefl _) (lexLt_irrefl _)
  · -- D1 is a proper front of D2
    subst hB
    have hlast : ∃ x ∈ b :: B, x ≠ '0' := by
      have hgl : (b :: B).getLast? = some ((b :: B).getLast (List.cons_ne_nil b B)) :=
        List.getLast?_eq_getLast _ _
      have hglD2 : (D1 ++ b :: B).getLast? = some ((b :: B).getLast (List.cons_ne_nil b B)) := by
        rw [List.getLast?_append, hgl]
        rfl
      rcases hlast2 _ hglD2 with hx | hx
      · exact ⟨_, List.getLast_mem _, hx⟩
      · rw [List.length_append] at hx
        rcases D1 with _ | _
        · exact absurd rfl hne1
        · simp at hx
          omega
    constructor
    · intro _
      rw [List.append_assoc]
      rw [lexLt_append_left D1]
      refine zeros_lt hz1 ?_ ?_ ?_
      · intro x hx
        rcases List.mem_cons.mp hx with rfl | hx2
        · exact hd2 x (List.mem_append.mpr (Or.inr (List.mem_cons_self x B)))
        · rcases List.mem_append.mp hx2 with hx3 | hx3
          · exact hd2 x (List.mem_append.mpr (Or.inr (List.mem_cons_of_mem b hx3)))
          · rw [hz2 x hx3]
            decide
      · simp only [List.length_append, List.length_cons] at hlen ⊢
        omega
      · obtain ⟨x, hx, hxne⟩ := hlast
        refine ⟨x, ?_, hxne⟩
        rcases List.mem_cons.mp hx with rfl | hx2
        · exact List.mem_cons_self _ _
        · exact List.mem_cons_of_mem _ (List.mem_append.mpr (Or.inl hx2))
    · intro _
      rw [List.append_assoc]
      rw [lexLt_append_left D1]
      have hb0 : '0' ≤ b := (hd2 b (List.mem_append.mpr (Or.inr (List.mem_cons_self b B)))).1
      exact List.Lex.rel (lt_of_lt_of_le hc hb0)
  · -- D2 is a proper front of D1
    subst hB
    have hlast : ∃ x ∈ b :: B, x ≠ '0' := by
      have hgl : (b :: B).getLast? = some ((b :: B).getLast (List.cons_ne_nil b B)) :=
        List.getLast?_eq_getLast _ _
      have hglD1 : (D2 ++ b :: B).getLast? = some ((b :: B).getLast (List.cons_ne_nil b B)) := by
        rw [List.getLast?_append, hgl]
        rfl
      rcases hlast1 _ hglD1 with hx | hx
      · exact ⟨_, List.getLast_mem _, hx⟩
      · rw [List.length_append] at hx
        rcases D2 with _ | _
        · exact absurd rfl hne2
        · simp at hx
          omega
    have hzlt : Z2 < b :: (B ++ Z1) := by
      refine zeros_lt hz2 ?_ ?_ ?_
      · intro x hx
        rcases List.mem_cons.mp hx with rfl | hx2
        · exact hd1 x (List.mem_append.mpr (Or.inr (List.mem_cons_self x B)))
        · rcases List.mem_append.mp hx2 with hx3 | hx3
          · exact hd1 x (List.mem_append.mpr (Or.inr (List.mem_cons_of_mem b hx3)))
          · rw [hz1 x hx3]
            decide
      · simp only [List.length_append, List.length_cons] at hlen ⊢
        omega
      · obtain ⟨x, hx, hxne⟩ := hlast
        refine ⟨x, ?_, hxne⟩
        rcases List.mem_cons.mp hx with rfl | hx2
        · exact List.mem_cons_self _ _
        · exact List.mem_cons_of_mem _ (List.mem_append.mpr (Or.inl hx2))
    have hb0 : '0' ≤ b :=
      (hd1 b (List.mem_append.mpr (Or.inr (List.mem_cons_self b B)))).1
    refine iff_of_false ?_ ?_
    · intro hlt
      rw [List.append_assoc, List.cons_append, lexLt_append_left D2] at hlt
      cases hlt with
      | cons h2 => exact absurd hc (not_lt.mpr hb0)
      | rel h2 => exact absurd ((hc.trans_le hb0).trans h2) (lt_irrefl c)
    · intro hlt
      rw [List.append_assoc, List.cons_append, lexLt_append_left D2] at hlt
      exact lexLt_asymm hzlt hlt
  · subst hA
    subst hB
    have hL : ∀ u : List Char,
        ((p ++ a :: A) ++ u) < ((p ++ b :: B) ++ u) ↔ a < b := by
      intro u
      rw [List.append_assoc, List.append_assoc, List.cons_append, List.cons_append,
        lexLt_append_left p, lexLt_cons_iff]
      simp [hab]
    have hR : ((p ++ a :: A) ++ Z1) < ((p ++ b :: B) ++ Z2) ↔ a < b := by
      rw [List.append_assoc, List.append_assoc, List.cons_append, List.cons_append,
        lexLt_append_left p, lexLt_cons_iff]
      simp [hab]
    rw [hL (c :: r), hR]

theorem fracChars_facts (ns : Nat) (h : ns < 1000000000) :
    (∀ x ∈ fracChars ns, isDigitChar x) ∧
    fracChars ns ≠ [] ∧
    (∀ x, (fracChars ns).getLast? = some x → x ≠ '0' ∨ (fracChars ns).length = 1) ∧
    padNum 9 ns = fracChars ns ++ List.replicate (9 - (subsecReduce ns 9).2) '0' := by
  have h9 : ns < 10 ^ 9 := by
    have : (10 : Nat) ^ 9 = 1000000000 := by norm_num
    omega
  obtain ⟨ha, hb, hc, hd, he⟩ := subsecReduce_spec 9 ns (by norm_num) h9
  have hlenfrac : (fracChars ns).length = (subsecReduce ns 9).2 := padNum_length _ _
  refine ⟨padNum_digits _ _ hc, ?_, ?_, hd⟩
  · intro hnil
    rw [hnil] at hlenfrac
    simp at hlenfrac
    omega
  · intro x hx
    rcases he with h1 | h1
    · right
      rw [hlenfrac, h1]
    · left
      obtain ⟨u', hu'⟩ : ∃ u', (subsecReduce ns 9).2 = u' + 1 :=
        ⟨(subsecReduce ns 9).2 - 1, by omega⟩
      have hgl : (fracChars ns).getLast? =
          some (digitChar ((subsecReduce ns 9).1 % 10)) := by
        show (padNum (subsecReduce ns 9).2 (subsecReduce ns 9).1).getLast? = _
        rw [hu']
        exact padNum_getLast u' _ (hu' ▸ hc)
      rw [hgl, Option.some.injEq] at hx
      intro hx0
      have hzero : digitChar ((subsecReduce ns 9).1 % 10) = digitChar 0 := by
        rw [hx, hx0]
        decide
      have : (subsecReduce ns 9).1 % 10 = 0 :=
        (digitChar_eq_iff (by omega) (by omega)).mp hzero
      exact h1 this

theorem fracChars_append_lt_iff (ns1 ns2 : Nat) (h1 : ns1 < 1000000000)
    (h2 : ns2 < 1000000000) (c : Char) (hc : c < '0') (r : List Char) :
    ((fracChars ns1 ++ c :: r) < (fracChars ns2 ++ c :: r)) ↔ ns1 < ns2 := by
  obtain ⟨hd1, hne1, hlast1, hdec1⟩ := fracChars_facts ns1 h1
  obtain ⟨hd2, hne2, hlast2, hdec2⟩ := fracChars_facts ns2 h2
  have h91 : ns1 < 10 ^ 9 := by
    have : (10 : Nat) ^ 9 = 1000000000 := by norm_num
    omega
  have h92 : ns2 < 10 ^ 9 := by
    have : (10 : Nat) ^ 9 = 1000000000 := by norm_num
    omega
  have hlen : (fracChars ns1 ++ List.replicate (9 - (subsecReduce ns1 9).2) '0').length =
      (fracChars ns2 ++ List.replicate (9 - (subsecReduce ns2 9).2) '0').length := by
    rw [← hdec1, ← hdec2, padNum_length, padNum_length]
  rw [stripped_append_lt_iff (fracChars ns1) (List.replicate (9 - (subsecReduce ns1 9).2) '0')
      (fracChars ns2) (List.replicate (9 - (subsecReduce ns2 9).2) '0') c r hc hd1 hd2
      (fun x hx => (List.mem_replicate.mp hx).2) (fun x hx => (List.mem_replicate.mp hx).2)
      hne1 hne2 hlast1 hlast2 hlen]
  rw [← hdec1, ← hdec2]
  exact padNum_lt_iff 9 ns1 ns2 h91 h92

/-! ### Calendar arithmetic -/

theorem isLeap_iff (y : Nat) :
    isLeap y = true ↔ (y % 4 = 0 ∧ (y % 100 ≠ 0 ∨ y % 400 = 0)) := by
  unfold isLeap
  simp

set_option maxHeartbeats 1000000 in
theorem daysBeforeYear_succ (y : Nat) :
    daysBeforeYear (y + 1) = daysBeforeYear y + (if isLeap y then 366 else 365) := by
  by_cases h : y % 4 = 0 ∧ (y % 100 ≠ 0 ∨ y % 400 = 0)
  · rw [if_pos ((isLeap_iff y).mpr h)]
    unfold daysBeforeYear
    omega
  · rw [if_neg (fun hc => h ((isLeap_iff y).mp hc))]
    unfold daysBeforeYear
    omega

theorem daysBeforeYear_mono : ∀ {y1 y2 : Nat}, y1 ≤ y2 →
    daysBeforeYear y1 ≤ daysBeforeYear y2 := by
  intro y1 y2 h
  induction y2 with
  | zero =>
      rw [Nat.le_zero.mp h]
  | succ n ih =>
      rcases Nat.lt_or_ge y1 (n + 1) with h2 | h2
      · have hle := ih (by omega)
        rw [daysBeforeYear_succ]
        split <;> omega
      · rw [Nat.le_antisymm h h2]

theorem days_in_month_le (y m : Nat) : days_in_month y m ≤ 31 := by
  unfold days_in_month
  split
  all_goals first | omega | (split <;> omega)

theorem daysBeforeMonth_add_dim (y m : Nat) (h1 : 1 ≤ m) (h2 : m ≤ 11) :
    daysBeforeMonth (isLeap y) m + days_in_month y m =
      daysBeforeMonth (isLeap y) (m + 1) := by
  rcases hl : isLeap y with _ | _ <;> interval_cases m <;>
    simp [daysBeforeMonth, days_in_month, hl]

theorem daysBeforeMonth_mono (leap : Bool) {m m' : Nat} (h1 : 1 ≤ m)
    (h2 : m ≤ m') (h3 : m' ≤ 12) :
    daysBeforeMonth leap m ≤ daysBeforeMonth leap m' := by
  have h4 : m ≤ 12 := le_trans h2 h3
  rcases leap with _ | _ <;> interval_cases m <;> interval_cases m' <;>
    simp [daysBeforeMonth]

theorem dayOfYear_lt (y m d : Nat) (hm1 : 1 ≤ m) (hm2 : m ≤ 12) (hd1 : 1 ≤ d)
    (hd2 : d ≤ days_in_month y m) :
    daysBeforeMonth (isLeap y) m + (d - 1) < (if isLeap y then 366 else 365) := by
  rcases hl : isLeap y with _ | _ <;> interval_cases m <;>
    simp [daysBeforeMonth, days_in_month, hl] at hd2 ⊢ <;> omega

theorem dayNumber_lt (t1 t2 : Timestamp) (h1 : Valid t1) (h2 : Valid t2)
    (hdate : t1.year < t2.year ∨ (t1.year = t2.year ∧
      (t1.month < t2.month ∨ (t1.month = t2.month ∧ t1.day < t2.day)))) :
    dayNumber t1 < dayNumber t2 := by
  obtain ⟨hy1, hmo1a, hmo1b, hda1, hdb1, _, _, _, _, _⟩ := h1
  obtain ⟨hy2, hmo2a, hmo2b, hda2, hdb2, _, _, _, _, _⟩ := h2
  rcases hdate with hy | ⟨hyeq, hrest⟩
  · have hdoy := dayOfYear_lt t1.year t1.month t1.day hmo1a hmo1b hda1 hdb1
    have hA : dayNumber t1 < daysBeforeYear (t1.year + 1) := by
      unfold dayNumber
      rw [daysBeforeYear_succ]
      rcases hl : isLeap t1.year with _ | _ <;> rw [hl] at hdoy <;>
        simp at hdoy ⊢ <;> omega
    have hB : daysBeforeYear (t1.year + 1) ≤ daysBeforeYear t2.year :=
      daysBeforeYear_mono (by omega)
    have hC : daysBeforeYear t2.year ≤ dayNumber t2 := by
      unfold dayNumber
      omega
    omega
  · unfold dayNumber
    rw [hyeq] at hdb1 ⊢
    rcases hrest with hmo | ⟨hmoeq, hd⟩
    · have hstep := daysBeforeMonth_add_dim t2.year t1.month hmo1a (by omega)
      have hmono := daysBeforeMonth_mono (isLeap t2.year)
        (by omega : 1 ≤ t1.month + 1) (by omega : t1.month + 1 ≤ t2.month) hmo2b
      omega
    · rw [hmoeq]
      omega

/-! ### Instant comparison -/

theorem instant_lt_helper (dn1 dn2 hh1 hh2 mi1 mi2 s1 s2 ns1 ns2 off : Int)
    (hb1 : 0 ≤ hh1) (hb2 : hh1 ≤ 23) (hb3 : 0 ≤ hh2) (hb4 : hh2 ≤ 23)
    (hb5 : 0 ≤ mi1) (hb6 : mi1 ≤ 59) (hb7 : 0 ≤ mi2) (hb8 : mi2 ≤ 59)
    (hb9 : 0 ≤ s1) (hb10 : s1 ≤ 59) (hb11 : 0 ≤ s2) (hb12 : s2 ≤ 59)
    (hb13 : 0 ≤ ns1) (hb14 : ns1 ≤ 999999999) (hb15 : 0 ≤ ns2) (hb16 : ns2 ≤ 999999999)
    (hcase : dn1 < dn2 ∨ (dn1 = dn2 ∧ (hh1 < hh2 ∨ (hh1 = hh2 ∧
      (mi1 < mi2 ∨ (mi1 = mi2 ∧ (s1 < s2 ∨ (s1 = s2 ∧ ns1 < ns2)))))))) :
    (dn1 * 86400 + hh1 * 3600 + mi1 * 60 + s1 - off * 60) * 1000000000 + ns1 <
    (dn2 * 86400 + hh2 * 3600 + mi2 * 60 + s2 - off * 60) * 1000000000 + ns2 := by
  rcases hcase with h | ⟨e1, h | ⟨e2, h | ⟨e3, h | ⟨e4, h⟩⟩⟩⟩
  · nlinarith
  · rw [e1]; nlinarith
  · rw [e1, e2]; nlinarith
  · rw [e1, e2, e3]; nlinarith
  · rw [e1, e2, e3, e4]
    exact Int.add_lt_add_left h _

theorem chronLt_of_fieldsLt (t1 t2 : Timestamp) (h1 : Valid t1) (h2 : Valid t2)
    (hoff : t1.offsetMinutes = t2.offsetMinutes) (hf : fieldsLt t1 t2) :
    chronLt t1 t2 := by
  unfold chronLt toUtcNanos
  rw [hoff]
  obtain ⟨hy1, hmo1a, hmo1b, hda1, hdb1, hh1, hmi1, hs1, hn1, _⟩ := h1
  obtain ⟨hy2, hmo2a, hmo2b, hda2, hdb2, hh2, hmi2, hs2, hn2, _⟩ := h2
  have hdn : t1.year < t2.year ∨ (t1.year = t2.year ∧
      (t1.month < t2.month ∨ (t1.month = t2.month ∧ t1.day < t2.day))) ∨
      (t1.year = t2.year ∧ t1.month = t2.month ∧ t1.day = t2.day) := by
    unfold fieldsLt at hf
    omega
  have hcase : (dayNumber t1 : Int) < dayNumber t2 ∨
      ((dayNumber t1 : Int) = dayNumber t2 ∧ ((t1.hour : Int) < t2.hour ∨
        ((t1.hour : Int) = t2.hour ∧ ((t1.minute : Int) < t2.minute ∨
          ((t1.minute : Int) = t2.minute ∧ ((t1.second : Int) < t2.second ∨
            ((t1.second : Int) = t2.second ∧ (t1.nanos : Int) < t2.nanos))))))) := by
    rcases hdn with hd | hd | ⟨he1, he2, he3⟩
    · left
      exact_mod_cast dayNumber_lt t1 t2
        ⟨hy1, hmo1a, hmo1b, hda1, hdb1, hh1, hmi1, hs1, hn1, by assumption⟩
        ⟨hy2, hmo2a, hmo2b, hda2, hdb2, hh2, hmi2, hs2, hn2, by assumption⟩ (Or.inl hd)
    · left
      exact_mod_cast dayNumber_lt t1 t2
        ⟨hy1, hmo1a, hmo1b, hda1, hdb1, hh1, hmi1, hs1, hn1, by assumption⟩
        ⟨hy2, hmo2a, hmo2b, hda2, hdb2, hh2, hmi2, hs2, hn2, by assumption⟩ (Or.inr hd)
    · right
      have hdneq : dayNumber t1 = dayNumber t2 := by
        unfold dayNumber
        rw [he1, he2, he3]
      refine ⟨by exact_mod_cast hdneq, ?_⟩
      unfold fieldsLt at hf
      omega
  exact instant_lt_helper _ _ _ _ _ _ _ _ _ _ _
    (by positivity) (by exact_mod_cast hh1) (by positivity) (by exact_mod_cast hh2)
    (by positivity) (by exact_mod_cast hmi1) (by positivity) (by exact_mod_cast hmi2)
    (by positivity) (by exact_mod_cast hs1) (by positivity) (by exact_mod_cast hs2)
    (by positivity) (by exact_mod_cast (by omega : t1.nanos ≤ 999999999))
    (by positivity) (by exact_mod_cast (by omega : t2.nanos ≤ 999999999))
    hcase

theorem fields_trichotomy (t1 t2 : Timestamp) :
    fieldsLt t1 t2 ∨
    (t1.year = t2.year ∧ t1.month = t2.month ∧ t1.day = t2.day ∧
      t1.hour = t2.hour ∧ t1.minute = t2.minute ∧ t1.second = t2.second ∧
      t1.nanos = t2.nanos) ∨
    fieldsLt t2 t1 := by
  unfold fieldsLt
  omega

theorem toUtcNanos_congr (t1 t2 : Timestamp)
    (hoff : t1.offsetMinutes = t2.offsetMinutes)
    (h : t1.year = t2.year ∧ t1.month = t2.month ∧ t1.day = t2.day ∧
      t1.hour = t2.hour ∧ t1.minute = t2.minute ∧ t1.second = t2.second ∧
      t1.nanos = t2.nanos) :
    toUtcNanos t1 = toUtcNanos t2 := by
  obtain ⟨e1, e2, e3, e4, e5, e6, e7⟩ := h
  unfold toUtcNanos dayNumber
  rw [e1, e2, e3, e4, e5, e6, e7, hoff]

theorem chronLt_iff_fieldsLt (t1 t2 : Timestamp) (h1 : Valid t1) (h2 : Valid t2)
    (hoff : t1.offsetMinutes = t2.offsetMinutes) :
    chronLt t1 t2 ↔ fieldsLt t1 t2 := by
  constructor
  · intro hc
    rcases fields_trichotomy t1 t2 with h | h | h
    · exact h
    · exact absurd hc (by rw [chronLt, toUtcNanos_congr t1 t2 hoff h]; exact lt_irrefl _)
    · exact absurd hc (by
        have := chronLt_of_fieldsLt t2 t1 h2 h1 hoff.symm h
        unfold chronLt at this ⊢
        omega)
  · exact chronLt_of_fieldsLt t1 t2 h1 h2 hoff

/-! ### Format comparison -/

theorem offsetChars_head (off : Int) :
    ∃ ch rest, offsetChars off = ch :: rest ∧ ch < '0' := by
  unfold offsetChars
  by_cases h : off < 0
  · exact ⟨'-', _, by rw [if_pos h], by decide⟩
  · exact ⟨'+', _, by rw [if_neg h], by decide⟩

theorem dbDateChars_lt_of_fieldsLt (t1 t2 : Timestamp) (h1 : Valid t1)
    (h2 : Valid t2) (hoff : t1.offsetMinutes = t2.offsetMinutes)
    (hf : fieldsLt t1 t2) :
    dbDateChars t1 < dbDateChars t2 := by
  obtain ⟨hy1, hmo1a, hmo1b, hda1, hdb1, hh1, hmi1, hs1, hn1, _⟩ := h1
  obtain ⟨hy2, hmo2a, hmo2b, hda2, hdb2, hh2, hmi2, hs2, hn2, _⟩ := h2
  have hdim1 := days_in_month_le t1.year t1.month
  have hdim2 := days_in_month_le t2.year t2.month
  have e4 : (10 : Nat) ^ 4 = 10000 := by norm_num
  have e2 : (10 : Nat) ^ 2 = 100 := by norm_num
  unfold dbDateChars
  rw [hoff]
  rcases hf with hy | ⟨hyeq, hf⟩
  · exact lexLt_append_of_lt ((padNum_lt_iff 4 _ _ (by omega) (by omega)).mpr hy)
      (by rw [padNum_length, padNum_length]) _ _
  · rw [hyeq, lexLt_append_cons_left]
    rcases hf with hmo | ⟨hmoeq, hf⟩
    · exact lexLt_append_of_lt ((padNum_lt_iff 2 _ _ (by omega) (by omega)).mpr hmo)
        (by rw [padNum_length, padNum_length]) _ _
    · rw [hmoeq, lexLt_append_cons_left]
      rcases hf with hd | ⟨hdeq, hf⟩
      · exact lexLt_append_of_lt ((padNum_lt_iff 2 _ _ (by omega) (by omega)).mpr hd)
          (by rw [padNum_length, padNum_length]) _ _
      · rw [hdeq, lexLt_append_cons_left]
        rcases hf with hh | ⟨hheq, hf⟩
        · exact lexLt_append_of_lt ((padNum_lt_iff 2 _ _ (by omega) (by omega)).mpr hh)
            (by rw [padNum_length, padNum_length]) _ _
        · rw [hheq, lexLt_append_cons_left]
          rcases hf with hmi | ⟨hmieq, hf⟩
          · exact lexLt_append_of_lt ((padNum_lt_iff 2 _ _ (by omega) (by omega)).mpr hmi)
              (by rw [padNum_length, padNum_length]) _ _
          · rw [hmieq, lexLt_append_cons_left]
            rcases hf with hs | ⟨hseq, hns⟩
            · exact lexLt_append_of_lt ((padNum_lt_iff 2 _ _ (by omega) (by omega)).mpr hs)
                (by rw [padNum_length, padNum_length]) _ _
            · rw [hseq, lexLt_append_cons_left]
              obtain ⟨ch, rest, hoc, hch⟩ := offsetChars_head t2.offsetMinutes
              rw [hoc]
              exact (fracChars_append_lt_iff _ _ hn1 hn2 ch hch rest).mpr hns

theorem dbDateChars_congr (t1 t2 : Timestamp)
    (hoff : t1.offsetMinutes = t2.offsetMinutes)
    (h : t1.year = t2.year ∧ t1.month = t2.month ∧ t1.day = t2.day ∧
      t1.hour = t2.hour ∧ t1.minute = t2.minute ∧ t1.second = t2.second ∧
      t1.nanos = t2.nanos) :
    dbDateChars t1 = dbDateChars t2 := by
  obtain ⟨e1, e2, e3, e4, e5, e6, e7⟩ := h
  unfold dbDateChars
  rw [e1, e2, e3, e4, e5, e6, e7, hoff]

theorem dbDateChars_lt_iff (t1 t2 : Timestamp) (h1 : Valid t1) (h2 : Valid t2)
    (hoff : t1.offsetMinutes = t2.offsetMinutes) :
    dbDateChars t1 < dbDateChars t2 ↔ fieldsLt t1 t2 := by
  constructor
  · intro hlt
    rcases fields_trichotomy t1 t2 with h | h | h
    · exact h
    · exact absurd hlt (by rw [dbDateChars_congr t1 t2 hoff h]; exact lexLt_irrefl _)
    · exact absurd hlt (lexLt_asymm (dbDateChars_lt_of_fieldsLt t2 t1 h2 h1 hoff.symm h))
  · exact dbDateChars_lt_of_fieldsLt t1 t2 h1 h2 hoff

/-! ### Claim C6 -/

/-- C6 counterexample: two valid timestamps with different UTC offsets whose
chronological order is the reverse of the lexicographic order of their
DB_DATE_FORMAT strings.  The first is 23:00+09:00 (14:00 UTC), the second
22:00+00:00 (22:00 UTC) on the same calendar day, so the first is earlier,
yet its stored text is lexicographically larger. -/
theorem c6_counterexample :
    Valid tsOffA ∧ Valid tsOffB ∧ chronLt tsOffA tsOffB ∧
    ¬ (formatDbDate tsOffA < formatDbDate tsOffB) ∧
    formatDbDate tsOffB < formatDbDate tsOffA := by
  refine ⟨by decide, by decide, by decide, ?_, ?_⟩
  · rw [String.lt_iff_toList_lt]
    decide
  · rw [String.lt_iff_toList_lt]
    decide

/-- C6 (amended): for every pair of valid timestamps carrying the same UTC
offset, the DB_DATE_FORMAT strings compare lexicographically exactly as the
timestamps compare chronologically.  (The restriction to equal offsets is
forced: with different offsets the local-time text order can reverse the
instant order, as the counterexample shows.) -/
theorem c6_db_date_sortable (t1 t2 : Timestamp) (h1 : Valid t1) (h2 : Valid t2)
    (hoff : t1.offsetMinutes = t2.offsetMinutes) :
    (formatDbDate t1 < formatDbDate t2 ↔ chronLt t1 t2) := by
  rw [String.lt_iff_toList_lt]
  show dbDateChars t1 < dbDateChars t2 ↔ chronLt t1 t2
  rw [dbDateChars_lt_iff t1 t2 h1 h2 hoff, chronLt_iff_fieldsLt t1 t2 h1 h2 hoff]

/-- C6 witness: the amended theorem applied to two concrete same-offset
timestamps differing in their subsecond field (0.25s versus 0.5s), where
the reduced variable-width fraction still sorts correctly. -/
theorem c6_witness : formatDbDate tsFracA < formatDbDate tsFracB :=
  (c6_db_date_sortable tsFracA tsFracB (by decide) (by decide) rfl).mpr (by decide)

end Photosort
